import Mathlib

/-!
Verification development for the ToyC syntax checker (`src/ToyCANA.cpp`).

The C++ program is embedded shallowly:

* The lexer (`Lexer` class) becomes pure functions over `LexState`.
  Character-consuming loops (`skipWhitespace`, the comment scanners, the
  identifier/number readers) are structural recursions over the remaining
  input list.  The `while (true) { skipWhitespace(); if (!skipComment())
  break; }` loop of `nextToken` alternates two loops, so it carries an
  explicit fuel counter and returns `none` when fuel runs out; fuel
  `|input| + 1` is proved sufficient.
* The recursive-descent parser (`Parser` class) becomes a family of
  mutually recursive functions over `PState`, all indexed by a fuel
  counter that decreases at every call.  This mirrors the C++ exactly:
  on token sequences that do not end in `TOK_EOF` the C++ loops can run
  forever, and correspondingly the Lean functions return `none` for
  every fuel; on well-formed sequences an explicit fuel bound is proved
  sufficient (the termination claim).
* `main` becomes `runF`: build the input string (the C++ driver appends
  a newline to every line read, so the Lean input is that accumulated
  string), tokenize, discard `TOK_ERROR` tokens, parse, merge the two
  diagnostic lists, and render `accept` / `reject` plus the sorted
  diagnostics exactly as the `cout` statements do.

C++ `isalpha`/`isdigit`/`isspace` are modelled with their "C" locale
(ASCII) meaning.  The `'\0'` sentinel returned by `peek` past the end of
the input is modelled by defaulting to `'\x00'`, matching the C++ code
also when a literal NUL byte occurs in the input.
-/

set_option maxHeartbeats 1000000

namespace ToyC

/-- Token kinds, mirroring the C++ `enum TokenType`. -/
inductive TokenType where
  | TOK_EOF
  | TOK_INT | TOK_VOID | TOK_IF | TOK_ELSE | TOK_WHILE
  | TOK_BREAK | TOK_CONTINUE | TOK_RETURN
  | TOK_ID | TOK_NUMBER
  | TOK_PLUS | TOK_MINUS | TOK_STAR | TOK_DIV | TOK_MOD
  | TOK_LT | TOK_LE | TOK_GT | TOK_GE | TOK_EQ | TOK_NE
  | TOK_AND | TOK_OR | TOK_NOT
  | TOK_ASSIGN
  | TOK_LPAREN | TOK_RPAREN | TOK_LBRACE | TOK_RBRACE
  | TOK_SEMICOLON | TOK_COMMA
  | TOK_ERROR
deriving DecidableEq, Repr

/-- Mirror of the C++ `struct Token`. -/
structure Token where
  type : TokenType
  value : String
  line : Nat
  col : Nat
deriving DecidableEq, Repr

/-- The mutable state of the C++ `Lexer`: the not-yet-consumed input
(`input` from position `pos` onward), the line and column counters and
the recorded lexical errors. -/
structure LexState where
  input : List Char
  line : Nat
  col : Nat
  errors : List (Nat × String)
deriving DecidableEq, Repr

/-- `Lexer::peek(offset)`: `'\0'` past the end of the input. -/
def peekc (s : LexState) (k : Nat) : Char := s.input.getD k '\x00'

/-- `Lexer::advance()` (state part): consume one character, updating the
line and column counters. -/
def advance1 (s : LexState) : LexState :=
  match s.input with
  | [] => s
  | c :: r =>
    { s with input := r,
             line := if c = '\n' then s.line + 1 else s.line,
             col := if c = '\n' then 1 else s.col + 1 }

/-- ASCII `isspace` ("C" locale). -/
def cIsSpace (c : Char) : Bool :=
  c = ' ' || c = '\t' || c = '\n' || c = '\x0b' || c = '\x0c' || c = '\r'

/-- ASCII `isalpha` ("C" locale). -/
def cIsAlpha (c : Char) : Bool :=
  ('A' ≤ c && c ≤ 'Z') || ('a' ≤ c && c ≤ 'z')

/-- ASCII `isdigit`. -/
def cIsDigit (c : Char) : Bool := '0' ≤ c && c ≤ '9'

/-- `isalnum(c) || c == '_'`, the identifier-continuation test. -/
def cIsIdentChar (c : Char) : Bool := cIsAlpha c || cIsDigit c || c = '_'

/-- Core of `Lexer::skipWhitespace`: consume characters while `isspace`
holds, threading the line and column counters. -/
def skipWSCore : List Char → Nat → Nat → List Char × Nat × Nat
  | [], l, k => ([], l, k)
  | c :: r, l, k =>
    if cIsSpace c then
      skipWSCore r (if c = '\n' then l + 1 else l) (if c = '\n' then 1 else k + 1)
    else (c :: r, l, k)

/-- Core of the `//` branch of `Lexer::skipComment`: consume characters
while `peek() != '\n' && peek() != '\0'` (the two slashes included). -/
def skipLineCore : List Char → Nat → Nat → List Char × Nat × Nat
  | [], l, k => ([], l, k)
  | c :: r, l, k =>
    if c = '\n' ∨ c = '\x00' then (c :: r, l, k)
    else skipLineCore r l (k + 1)

/-- Core of the `/*` branch of `Lexer::skipComment`, after the opening
`/*` has been consumed: scan for `*/`.  Returns `true` and the state
past the closer when found, `false` (unterminated) when `peek()` becomes
`'\0'`. -/
def skipBlockCore : List Char → Nat → Nat → Bool × List Char × Nat × Nat
  | [], l, k => (false, [], l, k)
  | c :: r, l, k =>
    if c = '\x00' then (false, c :: r, l, k)
    else if c = '*' ∧ r.getD 0 '\x00' = '/' then (true, r.drop 1, l, k + 2)
    else skipBlockCore r (if c = '\n' then l + 1 else l) (if c = '\n' then 1 else k + 1)

/-- `Lexer::skipWhitespace`. -/
def skipWhitespace (s : LexState) : LexState :=
  let r := skipWSCore s.input s.line s.col
  { s with input := r.1, line := r.2.1, col := r.2.2 }

/-- `Lexer::skipComment`: `true` when a comment was skipped, `false`
otherwise; the unterminated-block-comment case records the diagnostic at
the comment's starting line and returns `false`. -/
def skipComment (s : LexState) : Bool × LexState :=
  if peekc s 0 = '/' ∧ peekc s 1 = '/' then
    let r := skipLineCore s.input s.line s.col
    (true, { s with input := r.1, line := r.2.1, col := r.2.2 })
  else if peekc s 0 = '/' ∧ peekc s 1 = '*' then
    let startLine := s.line
    let r := skipBlockCore (s.input.drop 2) s.line (s.col + 2)
    if r.1 then
      (true, { s with input := r.2.1, line := r.2.2.1, col := r.2.2.2 })
    else
      (false,
        { s with
            input := r.2.1, line := r.2.2.1, col := r.2.2.2,
            errors := s.errors ++ [(startLine, "Unterminated comment")] })
  else (false, s)

/-- The `while (true) { skipWhitespace(); if (!skipComment()) break; }`
loop opening `Lexer::nextToken`.  Each continuing iteration consumes at
least one character, so fuel `|input| + 1` suffices (proved below). -/
def skipTriviaF : Nat → LexState → Option LexState
  | 0, _ => none
  | n + 1, s =>
    let r := skipComment (skipWhitespace s)
    if r.1 then skipTriviaF n r.2 else some r.2

/-- Core of the identifier/number readers: consume characters while `p`
holds, returning the consumed prefix and the column counter.  The line
counter is untouched: the predicates used never accept `'\n'`. -/
def readWhileCore (p : Char → Bool) : List Char → Nat → List Char × List Char × Nat
  | [], k => ([], [], k)
  | c :: r, k =>
    if p c then
      let q := readWhileCore p r (k + 1)
      (c :: q.1, q.2.1, q.2.2)
    else ([], c :: r, k)

/-- Keyword classification of a scanned identifier. -/
def keywordType (id : String) : TokenType :=
  if id = "int" then .TOK_INT
  else if id = "void" then .TOK_VOID
  else if id = "if" then .TOK_IF
  else if id = "else" then .TOK_ELSE
  else if id = "while" then .TOK_WHILE
  else if id = "break" then .TOK_BREAK
  else if id = "continue" then .TOK_CONTINUE
  else if id = "return" then .TOK_RETURN
  else .TOK_ID

/-- A token with no lexeme (the C++ `Token` value field stays default). -/
def mkTok (t : TokenType) (l k : Nat) : Token := ⟨t, "", l, k⟩

/-- The greedy two-character-operator pattern of the C++ `switch`: after
consuming the first character, consume the second exactly when it equals
`second`, producing `two` resp. `one`. -/
def twoCharOp (s : LexState) (second : Char) (two one : TokenType) (l k : Nat) :
    Token × LexState :=
  if peekc (advance1 s) 0 = second then (mkTok two l k, advance1 (advance1 s))
  else (mkTok one l k, advance1 s)

/-- The operator/punctuation `switch` of `Lexer::nextToken`.  A lone `&`
or `|`, and any unrecognized character, produce a `TOK_ERROR` token (and
no diagnostic). -/
def scanOp (s : LexState) (l k : Nat) : Token × LexState :=
  if peekc s 0 = '+' then (mkTok .TOK_PLUS l k, advance1 s)
  else if peekc s 0 = '-' then (mkTok .TOK_MINUS l k, advance1 s)
  else if peekc s 0 = '*' then (mkTok .TOK_STAR l k, advance1 s)
  else if peekc s 0 = '/' then (mkTok .TOK_DIV l k, advance1 s)
  else if peekc s 0 = '%' then (mkTok .TOK_MOD l k, advance1 s)
  else if peekc s 0 = '(' then (mkTok .TOK_LPAREN l k, advance1 s)
  else if peekc s 0 = ')' then (mkTok .TOK_RPAREN l k, advance1 s)
  else if peekc s 0 = '\x7b' then (mkTok .TOK_LBRACE l k, advance1 s)
  else if peekc s 0 = '\x7d' then (mkTok .TOK_RBRACE l k, advance1 s)
  else if peekc s 0 = ';' then (mkTok .TOK_SEMICOLON l k, advance1 s)
  else if peekc s 0 = ',' then (mkTok .TOK_COMMA l k, advance1 s)
  else if peekc s 0 = '<' then twoCharOp s '=' .TOK_LE .TOK_LT l k
  else if peekc s 0 = '>' then twoCharOp s '=' .TOK_GE .TOK_GT l k
  else if peekc s 0 = '=' then twoCharOp s '=' .TOK_EQ .TOK_ASSIGN l k
  else if peekc s 0 = '!' then twoCharOp s '=' .TOK_NE .TOK_NOT l k
  else if peekc s 0 = '&' then twoCharOp s '&' .TOK_AND .TOK_ERROR l k
  else if peekc s 0 = '|' then twoCharOp s '|' .TOK_OR .TOK_ERROR l k
  else (mkTok .TOK_ERROR l k, advance1 s)

/-- `Lexer::nextToken` after the trivia loop: build one token from the
current position. -/
def scanCore (s : LexState) : Token × LexState :=
  let tl := s.line
  let tc := s.col
  if peekc s 0 = '\x00' then (mkTok .TOK_EOF tl tc, s)
  else if cIsAlpha (peekc s 0) ∨ peekc s 0 = '_' then
    let r := readWhileCore cIsIdentChar s.input s.col
    let id := String.mk r.1
    (⟨keywordType id, id, tl, tc⟩, { s with input := r.2.1, col := r.2.2 })
  else if cIsDigit (peekc s 0) then
    let r := readWhileCore cIsDigit s.input s.col
    (⟨.TOK_NUMBER, String.mk r.1, tl, tc⟩, { s with input := r.2.1, col := r.2.2 })
  else scanOp s tl tc

/-- `Lexer::nextToken`: skip whitespace and comments, then scan one
token.  `none` only on fuel exhaustion. -/
def nextTokenF (n : Nat) (s : LexState) : Option (Token × LexState) :=
  (skipTriviaF n s).map scanCore

/-- The tokenizing loop of `main`: call `nextToken` repeatedly, drop
`TOK_ERROR` tokens (`if (tok.type == TOK_ERROR) continue;`), push
everything else, stop after pushing the first `TOK_EOF`.  Returns the
token list and the final lexer state (whose `errors` field is
`lexer.getErrors()`). -/
def tokenizeF : Nat → LexState → Option (List Token × LexState)
  | 0, _ => none
  | n + 1, s =>
    match nextTokenF (n + 1) s with
    | none => none
    | some (tok, s1) =>
      if tok.type = .TOK_ERROR then tokenizeF n s1
      else if tok.type = .TOK_EOF then some ([tok], s1)
      else
        match tokenizeF n s1 with
        | none => none
        | some (ts, s2) => some (tok :: ts, s2)

/-- The `Lexer(input)` constructor: position 0, line 1, column 1, no
errors.  `text` is the string `main` accumulated from stdin (each line
read gets a `'\n'` appended). -/
def initLex (text : String) : LexState := ⟨text.data, 1, 1, []⟩

/-- Presence of an adjacent `*/` pair, the closing condition the block
comment scanner looks for. -/
def hasClose : List Char → Bool
  | [] => false
  | [_] => false
  | a :: b :: r => if a = '*' ∧ b = '/' then true else hasClose (b :: r)

/-- The mutable state of the C++ `Parser`, minus the (immutable) token
vector, which is passed separately to every function: cursor position,
recorded diagnostics, the per-line suppression set (`errorLines`,
modelled as the list of lines in insertion order) and the loop-nesting
counter. -/
structure PState where
  pos : Nat
  errors : List (Nat × String)
  errLines : List Nat
  loopDepth : Int
deriving DecidableEq, Repr

/-- Fallback token for `tokens.back()` on an empty vector (undefined
behaviour in C++; `main` never constructs an empty vector). -/
def dummyTok : Token := ⟨.TOK_EOF, "", 0, 0⟩

/-- `Parser::peek(offset)`: the token at `pos + offset`, or
`tokens.back()` past the end. -/
def peekT (toks : List Token) (st : PState) (k : Nat) : Token :=
  if st.pos + k < toks.length then toks.getD (st.pos + k) dummyTok
  else toks.getLastD dummyTok

/-- The type of `peek(offset)`, the basis of `Parser::match`. -/
def tokTy (toks : List Token) (st : PState) (k : Nat) : TokenType :=
  (peekT toks st k).type

/-- `Parser::advance` (state part; the returned token is never used by
the C++ callers): increment the cursor unless it is already past the
end. -/
def advanceP (toks : List Token) (st : PState) : PState :=
  if st.pos < toks.length then { st with pos := st.pos + 1 } else st

/-- `Parser::addError`: record `(peek().line, msg)` unless that line
already has a diagnostic (first error on a line wins). -/
def addErrorP (toks : List Token) (st : PState) (msg : String) : PState :=
  let t := peekT toks st 0
  if t.line ∈ st.errLines then st
  else { st with errors := st.errors ++ [(t.line, msg)],
                 errLines := st.errLines ++ [t.line] }

/-- `Parser::consume`: on a match advance and return `true`, otherwise
record the diagnostic and return `false`. -/
def consumeP (toks : List Token) (st : PState) (ty : TokenType) (msg : String) :
    Bool × PState :=
  if tokTy toks st 0 = ty then (true, advanceP toks st)
  else (false, addErrorP toks st msg)

/-- The `while (!match(TOK_EOF) && !match(TOK_INT) && !match(TOK_VOID))
advance();` recovery loop of `parseFuncDef`. -/
def skipFnSyncF (toks : List Token) : Nat → PState → Option PState
  | 0, _ => none
  | n + 1, st =>
    if tokTy toks st 0 = .TOK_EOF ∨ tokTy toks st 0 = .TOK_INT ∨
        tokTy toks st 0 = .TOK_VOID then some st
    else skipFnSyncF toks n (advanceP toks st)

/-- The `while (!match(TOK_EOF) && !match(TOK_LBRACE)) { if (match(TOK_INT)
|| match(TOK_VOID)) break; advance(); }` recovery loop of `parseFuncDef`. -/
def skipSigSyncF (toks : List Token) : Nat → PState → Option PState
  | 0, _ => none
  | n + 1, st =>
    if tokTy toks st 0 = .TOK_EOF ∨ tokTy toks st 0 = .TOK_LBRACE ∨
        tokTy toks st 0 = .TOK_INT ∨ tokTy toks st 0 = .TOK_VOID then some st
    else skipSigSyncF toks n (advanceP toks st)

/-- The `while (!match(TOK_RPAREN) && !match(TOK_EOF) && !match(TOK_LBRACE)
&& !match(TOK_SEMICOLON)) advance();` recovery loop of the `if`/`while`
headers in `parseStmt`. -/
def skipParenSyncF (toks : List Token) : Nat → PState → Option PState
  | 0, _ => none
  | n + 1, st =>
    if tokTy toks st 0 = .TOK_RPAREN ∨ tokTy toks st 0 = .TOK_EOF ∨
        tokTy toks st 0 = .TOK_LBRACE ∨ tokTy toks st 0 = .TOK_SEMICOLON then some st
    else skipParenSyncF toks n (advanceP toks st)

/-- The `while (!match(TOK_SEMICOLON) && !match(TOK_EOF) &&
!match(TOK_RBRACE)) advance();` part of the statement-recovery idiom. -/
def skipStmtSyncF (toks : List Token) : Nat → PState → Option PState
  | 0, _ => none
  | n + 1, st =>
    if tokTy toks st 0 = .TOK_SEMICOLON ∨ tokTy toks st 0 = .TOK_EOF ∨
        tokTy toks st 0 = .TOK_RBRACE then some st
    else skipStmtSyncF toks n (advanceP toks st)

/-- The statement-recovery idiom of `parseStmt`, written inline at each
error site in the C++: skip to `;`/`}`/end-of-input, then consume a `;`. -/
def recoverStmtF (toks : List Token) (n : Nat) (st : PState) : Option PState :=
  (skipStmtSyncF toks n st).map fun st1 =>
    if tokTy toks st1 0 = .TOK_SEMICOLON then advanceP toks st1 else st1

/-- `Parser::parseParam`: `consume(TOK_INT); consume(TOK_ID)` (results
ignored, no recursion). -/
def parseParamP (toks : List Token) (st : PState) : PState :=
  let r1 := consumeP toks st .TOK_INT "Expected parameter type"
  (consumeP toks r1.2 .TOK_ID "Expected parameter name").2

/-- The `while (match(TOK_COMMA)) { advance(); parseParam(); }` loop of
`parseFuncDef`. -/
def parseParamLoopF (toks : List Token) : Nat → PState → Option PState
  | 0, _ => none
  | n + 1, st =>
    if tokTy toks st 0 = .TOK_COMMA then
      parseParamLoopF toks n (parseParamP toks (advanceP toks st))
    else some st

/-- The statement-recovery idiom that follows every failed
`consume(TOK_SEMICOLON, "Lack of ';'")` in `parseStmt` (written inline at
each error site in the C++): on a `;` consume it, otherwise record the
diagnostic and skip to the next `;` (consumed) / `}` / end-of-input. -/
def finishStmtF (toks : List Token) (n : Nat) (st : PState) : Option PState :=
  if tokTy toks st 0 = .TOK_SEMICOLON then some (advanceP toks st)
  else recoverStmtF toks n (addErrorP toks st "Lack of ';'")

mutual

/-- `Parser::parsePrimaryExpr`: identifier (possibly a call with
arguments), number, or parenthesized expression; otherwise record
"Expected expression" (without advancing).  The `consume` calls are
inlined: on a match advance, otherwise record the diagnostic. -/
def parsePrimaryF (toks : List Token) : Nat → PState → Option PState
  | 0, _ => none
  | n + 1, st =>
    if tokTy toks st 0 = .TOK_ID then
      if tokTy toks (advanceP toks st) 0 = .TOK_LPAREN then
        match parseArgListF toks n (advanceP toks (advanceP toks st)) with
        | none => none
        | some st4 => some (consumeP toks st4 .TOK_RPAREN "Lack of ')'").2
      else some (advanceP toks st)
    else if tokTy toks st 0 = .TOK_NUMBER then some (advanceP toks st)
    else if tokTy toks st 0 = .TOK_LPAREN then
      match parseExprF toks n (advanceP toks st) with
      | none => none
      | some st1 => some (consumeP toks st1 .TOK_RPAREN "Lack of ')'").2
    else some (addErrorP toks st "Expected expression")

/-- The argument-list body shared by the call expression of
`parsePrimaryExpr` and the call statement of `parseStmt` (the cursor is
just past the `(`): empty when the next token is `)`, otherwise one
expression followed by the comma loop. -/
def parseArgListF (toks : List Token) : Nat → PState → Option PState
  | 0, _ => none
  | n + 1, st =>
    if tokTy toks st 0 = .TOK_RPAREN then some st
    else
      match parseExprF toks n st with
      | none => none
      | some st1 => parseArgsF toks n st1

/-- The `while (match(TOK_COMMA)) { advance(); parseExpr(); }` loop. -/
def parseArgsF (toks : List Token) : Nat → PState → Option PState
  | 0, _ => none
  | n + 1, st =>
    if tokTy toks st 0 = .TOK_COMMA then
      match parseExprF toks n (advanceP toks st) with
      | none => none
      | some st1 => parseArgsF toks n st1
    else some st

/-- `Parser::parseUnaryExpr`: prefix `+`/`-`/`!` then recurse, else a
primary expression. -/
def parseUnaryF (toks : List Token) : Nat → PState → Option PState
  | 0, _ => none
  | n + 1, st =>
    if tokTy toks st 0 = .TOK_PLUS ∨ tokTy toks st 0 = .TOK_MINUS ∨
        tokTy toks st 0 = .TOK_NOT then
      parseUnaryF toks n (advanceP toks st)
    else parsePrimaryF toks n st

/-- `Parser::parseMulExpr`. -/
def parseMulF (toks : List Token) : Nat → PState → Option PState
  | 0, _ => none
  | n + 1, st =>
    match parseUnaryF toks n st with
    | none => none
    | some st1 => parseMulLoopF toks n st1

/-- The `while (match STAR/DIV/MOD)` loop of `parseMulExpr`. -/
def parseMulLoopF (toks : List Token) : Nat → PState → Option PState
  | 0, _ => none
  | n + 1, st =>
    if tokTy toks st 0 = .TOK_STAR ∨ tokTy toks st 0 = .TOK_DIV ∨
        tokTy toks st 0 = .TOK_MOD then
      match parseUnaryF toks n (advanceP toks st) with
      | none => none
      | some st1 => parseMulLoopF toks n st1
    else some st

/-- `Parser::parseAddExpr`. -/
def parseAddF (toks : List Token) : Nat → PState → Option PState
  | 0, _ => none
  | n + 1, st =>
    match parseMulF toks n st with
    | none => none
    | some st1 => parseAddLoopF toks n st1

/-- The `while (match PLUS/MINUS)` loop of `parseAddExpr`. -/
def parseAddLoopF (toks : List Token) : Nat → PState → Option PState
  | 0, _ => none
  | n + 1, st =>
    if tokTy toks st 0 = .TOK_PLUS ∨ tokTy toks st 0 = .TOK_MINUS then
      match parseMulF toks n (advanceP toks st) with
      | none => none
      | some st1 => parseAddLoopF toks n st1
    else some st

/-- `Parser::parseRelExpr`. -/
def parseRelF (toks : List Token) : Nat → PState → Option PState
  | 0, _ => none
  | n + 1, st =>
    match parseAddF toks n st with
    | none => none
    | some st1 => parseRelLoopF toks n st1

/-- The `while (match LT/LE/GT/GE/EQ/NE)` loop of `parseRelExpr`. -/
def parseRelLoopF (toks : List Token) : Nat → PState → Option PState
  | 0, _ => none
  | n + 1, st =>
    if tokTy toks st 0 = .TOK_LT ∨ tokTy toks st 0 = .TOK_LE ∨
        tokTy toks st 0 = .TOK_GT ∨ tokTy toks st 0 = .TOK_GE ∨
        tokTy toks st 0 = .TOK_EQ ∨ tokTy toks st 0 = .TOK_NE then
      match parseAddF toks n (advanceP toks st) with
      | none => none
      | some st1 => parseRelLoopF toks n st1
    else some st

/-- `Parser::parseLAndExpr`. -/
def parseLAndF (toks : List Token) : Nat → PState → Option PState
  | 0, _ => none
  | n + 1, st =>
    match parseRelF toks n st with
    | none => none
    | some st1 => parseLAndLoopF toks n st1

/-- The `while (match(TOK_AND))` loop of `parseLAndExpr`. -/
def parseLAndLoopF (toks : List Token) : Nat → PState → Option PState
  | 0, _ => none
  | n + 1, st =>
    if tokTy toks st 0 = .TOK_AND then
      match parseRelF toks n (advanceP toks st) with
      | none => none
      | some st1 => parseLAndLoopF toks n st1
    else some st

/-- `Parser::parseLOrExpr`. -/
def parseLOrF (toks : List Token) : Nat → PState → Option PState
  | 0, _ => none
  | n + 1, st =>
    match parseLAndF toks n st with
    | none => none
    | some st1 => parseLOrLoopF toks n st1

/-- The `while (match(TOK_OR))` loop of `parseLOrExpr`. -/
def parseLOrLoopF (toks : List Token) : Nat → PState → Option PState
  | 0, _ => none
  | n + 1, st =>
    if tokTy toks st 0 = .TOK_OR then
      match parseLAndF toks n (advanceP toks st) with
      | none => none
      | some st1 => parseLOrLoopF toks n st1
    else some st

/-- `Parser::parseExpr`: delegate to the lowest-precedence level. -/
def parseExprF (toks : List Token) : Nat → PState → Option PState
  | 0, _ => none
  | n + 1, st => parseLOrF toks n st

/-- `Parser::parseBlock`: `{`, statements until `}`/end-of-input, `}`.
On a missing `{` record the diagnostic and return immediately. -/
def parseBlockF (toks : List Token) : Nat → PState → Option PState
  | 0, _ => none
  | n + 1, st =>
    if tokTy toks st 0 = .TOK_LBRACE then
      match parseBlockLoopF toks n (advanceP toks st) with
      | none => none
      | some st1 => some (consumeP toks st1 .TOK_RBRACE "Lack of '\x7d'").2
    else some (addErrorP toks st "Lack of '\x7b'")

/-- The `while (!match(TOK_RBRACE) && !match(TOK_EOF)) parseStmt();`
loop of `parseBlock`. -/
def parseBlockLoopF (toks : List Token) : Nat → PState → Option PState
  | 0, _ => none
  | n + 1, st =>
    if tokTy toks st 0 = .TOK_RBRACE ∨ tokTy toks st 0 = .TOK_EOF then some st
    else
      match parseStmtF toks n st with
      | none => none
      | some st1 => parseBlockLoopF toks n st1

/-- The parenthesized-condition header of the `if` and `while`
statements (the cursor is on the expected `(`): on a `(` parse the
condition and require `)`; otherwise record the diagnostic and skip to
`)`/`{`/`;`/end-of-input. -/
def parseHeadF (toks : List Token) : Nat → PState → Option PState
  | 0, _ => none
  | n + 1, st =>
    if tokTy toks st 0 = .TOK_LPAREN then
      match parseExprF toks n (advanceP toks st) with
      | none => none
      | some st2 => some (consumeP toks st2 .TOK_RPAREN "Lack of ')'").2
    else skipParenSyncF toks n (addErrorP toks st "Lack of '('")

/-- The local-declaration tail of `parseStmt` (the cursor is on the
expected variable name, the `int` already consumed): name, optional
`= expression`, `;` with statement recovery; on a missing name record
the diagnostic and recover. -/
def parseDeclTailF (toks : List Token) : Nat → PState → Option PState
  | 0, _ => none
  | n + 1, st =>
    if tokTy toks st 0 = .TOK_ID then
      match
        (if tokTy toks (advanceP toks st) 0 = .TOK_ASSIGN then
          parseExprF toks n (advanceP toks (advanceP toks st))
        else some (advanceP toks st)) with
      | none => none
      | some st2 => finishStmtF toks n st2
    else recoverStmtF toks n (addErrorP toks st "Expected variable name")

/-- The assignment tail of the identifier statement (the cursor is on
the `=`): `advance(); parseExpr();` then `;` with statement recovery. -/
def parseAssignTailF (toks : List Token) : Nat → PState → Option PState
  | 0, _ => none
  | n + 1, st =>
    match parseExprF toks n (advanceP toks st) with
    | none => none
    | some st1 => finishStmtF toks n st1

/-- The call tail of the identifier statement (the cursor is on the
`(`): argument list, `consume(TOK_RPAREN)` (result ignored), then `;`
with statement recovery. -/
def parseCallTailF (toks : List Token) : Nat → PState → Option PState
  | 0, _ => none
  | n + 1, st =>
    match parseArgListF toks n (advanceP toks st) with
    | none => none
    | some st4 => finishStmtF toks n (consumeP toks st4 .TOK_RPAREN "Lack of ')'").2

/-- `Parser::parseStmt`, branch by branch: declaration, `if`, `while`
(loop-nesting counter bumped around the body), `break`, `continue`,
`return`, nested block, identifier statement (assignment / call /
"Invalid statement"), empty statement, expression statement. -/
def parseStmtF (toks : List Token) : Nat → PState → Option PState
  | 0, _ => none
  | n + 1, st =>
    if tokTy toks st 0 = .TOK_INT then parseDeclTailF toks n (advanceP toks st)
    else if tokTy toks st 0 = .TOK_IF then
      match parseHeadF toks n (advanceP toks st) with
      | none => none
      | some st3 =>
        match parseStmtF toks n st3 with
        | none => none
        | some st4 =>
          if tokTy toks st4 0 = .TOK_ELSE then parseStmtF toks n (advanceP toks st4)
          else some st4
    else if tokTy toks st 0 = .TOK_WHILE then
      match parseHeadF toks n (advanceP toks st) with
      | none => none
      | some st3 =>
        match parseStmtF toks n { st3 with loopDepth := st3.loopDepth + 1 } with
        | none => none
        | some st4 => some { st4 with loopDepth := st4.loopDepth - 1 }
    else if tokTy toks st 0 = .TOK_BREAK then
      finishStmtF toks n
        (if (advanceP toks st).loopDepth = 0 then
          addErrorP toks (advanceP toks st) "break not in loop"
        else advanceP toks st)
    else if tokTy toks st 0 = .TOK_CONTINUE then
      finishStmtF toks n
        (if (advanceP toks st).loopDepth = 0 then
          addErrorP toks (advanceP toks st) "continue not in loop"
        else advanceP toks st)
    else if tokTy toks st 0 = .TOK_RETURN then
      match
        (if tokTy toks (advanceP toks st) 0 = .TOK_SEMICOLON then
          some (advanceP toks st)
        else parseExprF toks n (advanceP toks st)) with
      | none => none
      | some st2 => finishStmtF toks n st2
    else if tokTy toks st 0 = .TOK_LBRACE then parseBlockF toks n st
    else if tokTy toks st 0 = .TOK_ID then
      if tokTy toks (advanceP toks st) 0 = .TOK_ASSIGN then
        parseAssignTailF toks n (advanceP toks st)
      else if tokTy toks (advanceP toks st) 0 = .TOK_LPAREN then
        parseCallTailF toks n (advanceP toks st)
      else recoverStmtF toks n (addErrorP toks (advanceP toks st) "Invalid statement")
    else if tokTy toks st 0 = .TOK_SEMICOLON then some (advanceP toks st)
    else
      match parseExprF toks n st with
      | none => none
      | some st1 => finishStmtF toks n st1

/-- `Parser::parseFuncDef`: return type, name, `(`, optional parameter
list, `)`, block, with the C++ recovery loops on each failure (none of
which aborts the function: after recovery the signature parse
continues, ending with `parseBlock`). -/
def parseFuncDefF (toks : List Token) : Nat → PState → Option PState
  | 0, _ => none
  | n + 1, st =>
    if tokTy toks st 0 = .TOK_INT ∨ tokTy toks st 0 = .TOK_VOID then
      if tokTy toks (advanceP toks st) 0 = .TOK_ID then
        match
          (if tokTy toks (advanceP toks (advanceP toks st)) 0 = .TOK_LPAREN then
            some (advanceP toks (advanceP toks (advanceP toks st)))
          else
            skipSigSyncF toks n
              (addErrorP toks (advanceP toks (advanceP toks st)) "Lack of '('")) with
        | none => none
        | some st2 =>
          match
            (if tokTy toks st2 0 = .TOK_INT then
              parseParamLoopF toks n (parseParamP toks st2)
            else some st2) with
          | none => none
          | some st3 =>
            match
              (if tokTy toks st3 0 = .TOK_RPAREN then some (advanceP toks st3)
              else skipSigSyncF toks n (addErrorP toks st3 "Lack of ')'")) with
            | none => none
            | some st4 => parseBlockF toks n st4
      else
        skipFnSyncF toks n (addErrorP toks (advanceP toks st) "Expected function name")
    else skipFnSyncF toks n (addErrorP toks st "Expected function return type")

/-- `Parser::parseCompUnit`: `while (!match(TOK_EOF)) parseFuncDef();`. -/
def parseCompUnitF (toks : List Token) : Nat → PState → Option PState
  | 0, _ => none
  | n + 1, st =>
    if tokTy toks st 0 = .TOK_EOF then some st
    else
      match parseFuncDefF toks n st with
      | none => none
      | some st1 => parseCompUnitF toks n st1

end

/-- The `Parser(tokens)` constructor: cursor 0, no errors, loop depth 0. -/
def initPState : PState := ⟨0, [], [], 0⟩

/-- `Parser::parse`: run `parseCompUnit` from the initial state and
return `errors.empty()` together with the final state (whose `errors`
field is `parser.getErrors()`). -/
def parseTopF (toks : List Token) (n : Nat) : Option (Bool × PState) :=
  (parseCompUnitF toks n initPState).map fun st => (st.errors.isEmpty, st)

/-- Strict lexicographic comparison on `List Char`, the meaning of C++
`std::string` `operator<` for the ASCII messages involved. -/
def strLtL : List Char → List Char → Bool
  | [], [] => false
  | [], _ :: _ => true
  | _ :: _, [] => false
  | a :: x, b :: y => if a < b then true else if b < a then false else strLtL x y

/-- `a <= b` on strings, derived from the strict order. -/
def strLe (a b : String) : Bool := !(strLtL b.data a.data)

/-- `std::pair` `operator<=` on `(line, message)`, the order `std::sort`
establishes in `main`. -/
def pairLe (a b : Nat × String) : Bool :=
  a.1 < b.1 || (a.1 = b.1 && strLe a.2 b.2)

/-- Ordered insertion for the model of `std::sort` (the comparison is a
total order, so the sorted sequence is unique and insertion sort
computes exactly what `std::sort` outputs). -/
def insertE (x : Nat × String) : List (Nat × String) → List (Nat × String)
  | [] => [x]
  | y :: ys => if pairLe x y then x :: y :: ys else y :: insertE x ys

/-- The model of `std::sort(allErrors.begin(), allErrors.end())`. -/
def sortE : List (Nat × String) → List (Nat × String)
  | [] => []
  | x :: xs => insertE x (sortE xs)

/-- The diagnostic-printing loop of `main`:
`cout << err.first << " " << err.second << endl;`. -/
def renderE : List (Nat × String) → String
  | [] => ""
  | e :: es => toString e.1 ++ " " ++ e.2 ++ "\n" ++ renderE es

/-- The whole program (`main`): tokenize, parse, merge the lexical and
parser diagnostics (in that order), and print the verdict plus the
sorted diagnostics.  `none` only on fuel exhaustion. -/
def runF (n : Nat) (text : String) : Option String :=
  match tokenizeF n (initLex text) with
  | none => none
  | some (toks, fs) =>
    match parseTopF toks n with
    | none => none
    | some (ok, pst) =>
      let allErrors := fs.errors ++ pst.errors
      if allErrors.isEmpty ∧ ok then some "accept\n"
      else some ("reject\n" ++ renderE (sortE allErrors))

/-- The coupling of the `errors` vector and the `errorLines` set in the
C++ `Parser`: the set holds exactly the lines of the recorded
diagnostics, each at most once. -/
def ErrInv (st : PState) : Prop :=
  st.errLines = st.errors.map Prod.fst ∧ st.errLines.Nodup

/-- What every parser routine invocation preserves: the cursor never
moves backward, the loop-nesting counter is restored on exit, and the
diagnostic bookkeeping invariant is maintained. -/
def PMono (st st' : PState) : Prop :=
  st.pos ≤ st'.pos ∧ st'.loopDepth = st.loopDepth ∧ (ErrInv st → ErrInv st')

/-- A well-formed token sequence, as `main` always produces one: not
empty and ending in the end-of-input token (`tokens.back()`). -/
def WfToks (toks : List Token) : Prop :=
  toks ≠ [] ∧ (toks.getLastD dummyTok).type = .TOK_EOF

/-- The conjunction, at one fuel value, of the monotonicity facts for
every parser routine: `some` results satisfy `PMono`, and the routines
that drive the `parseCompUnit` / `parseBlock` loops strictly advance the
cursor (the basis of the termination argument). -/
structure MonoProps (n : Nat) : Prop where
  primary : ∀ toks st st', parsePrimaryF toks n st = some st' → PMono st st'
  argList : ∀ toks st st', parseArgListF toks n st = some st' → PMono st st'
  args : ∀ toks st st', parseArgsF toks n st = some st' → PMono st st'
  unary : ∀ toks st st', parseUnaryF toks n st = some st' → PMono st st'
  mul : ∀ toks st st', parseMulF toks n st = some st' → PMono st st'
  mulLoop : ∀ toks st st', parseMulLoopF toks n st = some st' → PMono st st'
  add : ∀ toks st st', parseAddF toks n st = some st' → PMono st st'
  addLoop : ∀ toks st st', parseAddLoopF toks n st = some st' → PMono st st'
  rel : ∀ toks st st', parseRelF toks n st = some st' → PMono st st'
  relLoop : ∀ toks st st', parseRelLoopF toks n st = some st' → PMono st st'
  land : ∀ toks st st', parseLAndF toks n st = some st' → PMono st st'
  landLoop : ∀ toks st st', parseLAndLoopF toks n st = some st' → PMono st st'
  lor : ∀ toks st st', parseLOrF toks n st = some st' → PMono st st'
  lorLoop : ∀ toks st st', parseLOrLoopF toks n st = some st' → PMono st st'
  expr : ∀ toks st st', parseExprF toks n st = some st' → PMono st st'
  block : ∀ toks st st', parseBlockF toks n st = some st' → PMono st st'
  blockLoop : ∀ toks st st', parseBlockLoopF toks n st = some st' → PMono st st'
  head : ∀ toks st st', parseHeadF toks n st = some st' → PMono st st'
  declTail : ∀ toks st st', parseDeclTailF toks n st = some st' → PMono st st'
  assignTail : ∀ toks st st', parseAssignTailF toks n st = some st' → PMono st st'
  callTail : ∀ toks st st', parseCallTailF toks n st = some st' → PMono st st'
  stmt : ∀ toks st st', parseStmtF toks n st = some st' → PMono st st'
  funcdef : ∀ toks st st', parseFuncDefF toks n st = some st' → PMono st st'
  compunit : ∀ toks st st', parseCompUnitF toks n st = some st' → PMono st st'
  block_st : ∀ toks st st', parseBlockF toks n st = some st' →
    tokTy toks st 0 = .TOK_LBRACE → st.pos < toks.length → st.pos < st'.pos
  stmt_st : ∀ toks st st', parseStmtF toks n st = some st' →
    tokTy toks st 0 ≠ .TOK_RBRACE → tokTy toks st 0 ≠ .TOK_EOF →
    st.pos < toks.length → st.pos < st'.pos
  funcdef_st : ∀ toks st st', parseFuncDefF toks n st = some st' →
    tokTy toks st 0 ≠ .TOK_EOF → st.pos < toks.length → st.pos < st'.pos

/-- The conjunction, at one fuel value, of the fuel-sufficiency facts
for every parser routine: on a well-formed token sequence, fuel
`(remaining tokens) * 21 + rank + 1` is enough for the routine to
complete.  The rank orders the routines so that every same-position
call descends and every cursor-advancing call affords the full
multiplier. -/
structure SuffProps (n : Nat) : Prop where
  primary : ∀ toks st, WfToks toks →
    (toks.length - st.pos) * 21 + 2 ≤ n → (parsePrimaryF toks n st).isSome
  args : ∀ toks st, WfToks toks →
    (toks.length - st.pos) * 21 + 2 ≤ n → (parseArgsF toks n st).isSome
  unary : ∀ toks st, WfToks toks →
    (toks.length - st.pos) * 21 + 3 ≤ n → (parseUnaryF toks n st).isSome
  mulLoop : ∀ toks st, WfToks toks →
    (toks.length - st.pos) * 21 + 4 ≤ n → (parseMulLoopF toks n st).isSome
  mul : ∀ toks st, WfToks toks →
    (toks.length - st.pos) * 21 + 5 ≤ n → (parseMulF toks n st).isSome
  addLoop : ∀ toks st, WfToks toks →
    (toks.length - st.pos) * 21 + 6 ≤ n → (parseAddLoopF toks n st).isSome
  add : ∀ toks st, WfToks toks →
    (toks.length - st.pos) * 21 + 7 ≤ n → (parseAddF toks n st).isSome
  relLoop : ∀ toks st, WfToks toks →
    (toks.length - st.pos) * 21 + 8 ≤ n → (parseRelLoopF toks n st).isSome
  rel : ∀ toks st, WfToks toks →
    (toks.length - st.pos) * 21 + 9 ≤ n → (parseRelF toks n st).isSome
  landLoop : ∀ toks st, WfToks toks →
    (toks.length - st.pos) * 21 + 10 ≤ n → (parseLAndLoopF toks n st).isSome
  land : ∀ toks st, WfToks toks →
    (toks.length - st.pos) * 21 + 11 ≤ n → (parseLAndF toks n st).isSome
  lorLoop : ∀ toks st, WfToks toks →
    (toks.length - st.pos) * 21 + 12 ≤ n → (parseLOrLoopF toks n st).isSome
  lor : ∀ toks st, WfToks toks →
    (toks.length - st.pos) * 21 + 13 ≤ n → (parseLOrF toks n st).isSome
  expr : ∀ toks st, WfToks toks →
    (toks.length - st.pos) * 21 + 14 ≤ n → (parseExprF toks n st).isSome
  argList : ∀ toks st, WfToks toks →
    (toks.length - st.pos) * 21 + 15 ≤ n → (parseArgListF toks n st).isSome
  head : ∀ toks st, WfToks toks →
    (toks.length - st.pos) * 21 + 15 ≤ n → (parseHeadF toks n st).isSome
  declTail : ∀ toks st, WfToks toks →
    (toks.length - st.pos) * 21 + 15 ≤ n → (parseDeclTailF toks n st).isSome
  assignTail : ∀ toks st, WfToks toks →
    (toks.length - st.pos) * 21 + 15 ≤ n → (parseAssignTailF toks n st).isSome
  callTail : ∀ toks st, WfToks toks →
    (toks.length - st.pos) * 21 + 16 ≤ n → (parseCallTailF toks n st).isSome
  block : ∀ toks st, WfToks toks →
    (toks.length - st.pos) * 21 + 17 ≤ n → (parseBlockF toks n st).isSome
  stmt : ∀ toks st, WfToks toks →
    (toks.length - st.pos) * 21 + 18 ≤ n → (parseStmtF toks n st).isSome
  blockLoop : ∀ toks st, WfToks toks →
    (toks.length - st.pos) * 21 + 19 ≤ n → (parseBlockLoopF toks n st).isSome
  funcdef : ∀ toks st, WfToks toks →
    (toks.length - st.pos) * 21 + 20 ≤ n → (parseFuncDefF toks n st).isSome
  compunit : ∀ toks st, WfToks toks →
    (toks.length - st.pos) * 21 + 21 ≤ n → (parseCompUnitF toks n st).isSome

/-! ### Lexer lemmas: progress, fuel sufficiency, end-of-input token -/

/-- Number of newline characters, used to track the line counter. -/
def countNl : List Char → Nat
  | [] => 0
  | c :: r => (if c = '\n' then 1 else 0) + countNl r

theorem peekc_ne_nul {s : LexState} {k : Nat} (h : peekc s k ≠ '\x00') :
    k < s.input.length := by
  by_contra hk
  exact h (List.getD_eq_default _ _ (Nat.le_of_not_lt hk))

theorem peekc_cons {s : LexState} {c : Char} {r : List Char}
    (h : s.input = c :: r) : peekc s 0 = c := by
  simp [peekc, h]

theorem advance1_len_le (s : LexState) :
    (advance1 s).input.length ≤ s.input.length := by
  unfold advance1
  split <;> simp_all

theorem advance1_len_lt {s : LexState} (h : s.input ≠ []) :
    (advance1 s).input.length < s.input.length := by
  unfold advance1
  split
  · simp_all
  · simp_all

theorem skipWSCore_len (l : List Char) :
    ∀ a b, (skipWSCore l a b).1.length ≤ l.length := by
  induction l with
  | nil => intro a b; simp [skipWSCore]
  | cons c r ih =>
    intro a b
    simp only [skipWSCore]
    split
    · exact Nat.le_succ_of_le (ih _ _)
    · simp

theorem skipLineCore_len (l : List Char) :
    ∀ a b, (skipLineCore l a b).1.length ≤ l.length := by
  induction l with
  | nil => intro a b; simp [skipLineCore]
  | cons c r ih =>
    intro a b
    simp only [skipLineCore]
    split
    · simp
    · exact Nat.le_succ_of_le (ih _ _)

theorem skipLineCore_len_lt {c : Char} {r : List Char}
    (h1 : c ≠ '\n') (h2 : c ≠ '\x00') :
    ∀ a b, (skipLineCore (c :: r) a b).1.length < (c :: r).length := by
  intro a b
  simp only [skipLineCore]
  rw [if_neg (by simp [h1, h2])]
  exact Nat.lt_succ_of_le (skipLineCore_len r a (b + 1))

theorem skipBlockCore_len (l : List Char) :
    ∀ a b, (skipBlockCore l a b).2.1.length ≤ l.length := by
  induction l with
  | nil => intro a b; simp [skipBlockCore]
  | cons c r ih =>
    intro a b
    simp only [skipBlockCore]
    split
    · simp
    · split
      · simp only [List.length_cons, List.length_drop]
        omega
      · exact Nat.le_succ_of_le (ih _ _)

theorem readWhileCore_len (p : Char → Bool) (l : List Char) :
    ∀ k, (readWhileCore p l k).2.1.length ≤ l.length := by
  induction l with
  | nil => intro k; simp [readWhileCore]
  | cons c r ih =>
    intro k
    simp only [readWhileCore]
    split
    · exact Nat.le_succ_of_le (ih _)
    · simp

theorem readWhileCore_len_lt {p : Char → Bool} {c : Char} {r : List Char}
    (h : p c = true) :
    ∀ k, (readWhileCore p (c :: r) k).2.1.length < (c :: r).length := by
  intro k
  simp only [readWhileCore, if_pos h]
  exact Nat.lt_succ_of_le (readWhileCore_len p r (k + 1))

theorem skipWhitespace_len (s : LexState) :
    (skipWhitespace s).input.length ≤ s.input.length :=
  skipWSCore_len s.input s.line s.col

theorem skipComment_len (s : LexState) :
    (skipComment s).2.input.length ≤ s.input.length := by
  unfold skipComment
  dsimp only
  split
  · exact skipLineCore_len s.input s.line s.col
  · split
    · split
      · exact le_trans (skipBlockCore_len _ _ _) (by simp)
      · exact le_trans (skipBlockCore_len _ _ _) (by simp)
    · exact le_refl _

theorem skipComment_true_len {s : LexState} (h : (skipComment s).1 = true) :
    (skipComment s).2.input.length < s.input.length := by
  unfold skipComment at *
  dsimp only at *
  split at h
  · rename_i hc
    have hnn : peekc s 0 ≠ '\x00' := by rw [hc.1]; decide
    obtain ⟨c, r, hcr⟩ := List.exists_cons_of_ne_nil
      (List.ne_nil_of_length_pos (peekc_ne_nul hnn))
    have hc0 : c = '/' := by
      have := peekc_cons (s := s) hcr; rw [hc.1] at this; exact this.symm
    rw [if_pos hc, hcr]
    exact skipLineCore_len_lt (by simp [hc0]) (by simp [hc0]) s.line s.col
  · rename_i hc1
    split at h
    · rename_i hc
      have hnn : peekc s 1 ≠ '\x00' := by rw [hc.2]; decide
      have h2 : 1 < s.input.length := peekc_ne_nul hnn
      rw [if_neg hc1, if_pos hc]
      split
      · calc (skipBlockCore (s.input.drop 2) s.line (s.col + 2)).2.1.length
            ≤ (s.input.drop 2).length := skipBlockCore_len _ _ _
          _ < s.input.length := by simp only [List.length_drop]; omega
      · calc (skipBlockCore (s.input.drop 2) s.line (s.col + 2)).2.1.length
            ≤ (s.input.drop 2).length := skipBlockCore_len _ _ _
          _ < s.input.length := by simp only [List.length_drop]; omega
    · simp at h

theorem skipTriviaF_len :
    ∀ n s s', skipTriviaF n s = some s' → s'.input.length ≤ s.input.length := by
  intro n
  induction n with
  | zero => intro s s' h; simp [skipTriviaF] at h
  | succ n ih =>
    intro s s' h
    simp only [skipTriviaF] at h
    split at h
    · exact le_trans (ih _ _ h)
        (le_trans (skipComment_len _) (skipWhitespace_len _))
    · cases h
      exact le_trans (skipComment_len _) (skipWhitespace_len _)

theorem skipTriviaF_suff :
    ∀ n s, s.input.length + 1 ≤ n → (skipTriviaF n s).isSome := by
  intro n
  induction n with
  | zero => intro s h; omega
  | succ n ih =>
    intro s h
    simp only [skipTriviaF]
    split
    · rename_i ht
      apply ih
      have h1 : (skipComment (skipWhitespace s)).2.input.length <
          (skipWhitespace s).input.length := skipComment_true_len ht
      have h2 := skipWhitespace_len s
      omega
    · simp

theorem keywordType_ne_eof (id : String) : keywordType id ≠ .TOK_EOF := by
  unfold keywordType
  repeat' first | decide | split

theorem twoCharOp_len {s : LexState} (h : s.input ≠ []) (second : Char)
    (two one : TokenType) (l k : Nat) :
    (twoCharOp s second two one l k).2.input.length < s.input.length := by
  unfold twoCharOp
  split
  · exact lt_of_le_of_lt (advance1_len_le _) (advance1_len_lt h)
  · exact advance1_len_lt h

theorem twoCharOp_type {s : LexState} {second : Char} {two one : TokenType}
    {l k : Nat} :
    (twoCharOp s second two one l k).1.type = two ∨
      (twoCharOp s second two one l k).1.type = one := by
  unfold twoCharOp
  split
  · left; rfl
  · right; rfl

theorem ite_n {q : Prop} [Decidable q] {α : Sort _} {p : α → Prop} {x y : α}
    (hx : p x) (hy : p y) : p (if q then x else y) := by
  split <;> assumption

theorem scanOp_len {s : LexState} (h : s.input ≠ []) (l k : Nat) :
    (scanOp s l k).2.input.length < s.input.length := by
  unfold scanOp
  repeat' first
    | refine ite_n (p := fun z : Token × LexState => z.2.input.length < s.input.length) ?_ ?_
    | exact advance1_len_lt h
    | exact lt_of_le_of_lt (advance1_len_le _) (advance1_len_lt h)

theorem scanOp_ne_eof (s : LexState) (l k : Nat) :
    (scanOp s l k).1.type ≠ .TOK_EOF := by
  unfold scanOp
  repeat' first
    | refine ite_n (p := fun z : Token × LexState => z.1.type ≠ .TOK_EOF) ?_ ?_
    | (simp only [mkTok]; decide)

theorem scanCore_len (s : LexState) :
    (scanCore s).2.input.length ≤ s.input.length ∧
      ((scanCore s).1.type ≠ .TOK_EOF →
        (scanCore s).2.input.length < s.input.length) := by
  unfold scanCore
  dsimp only
  split
  · exact ⟨le_refl _, fun h => (h rfl).elim⟩
  · rename_i hnn
    have hne : s.input ≠ [] :=
      List.ne_nil_of_length_pos (peekc_ne_nul (k := 0) hnn)
    obtain ⟨c, r, hcr⟩ := List.exists_cons_of_ne_nil hne
    have hc : peekc s 0 = c := peekc_cons hcr
    split
    · rename_i hid
      have hpc : cIsIdentChar c = true := by
        rcases hid with hl | hl
        · simp [cIsIdentChar, (hc ▸ hl : cIsAlpha c = true)]
        · simp [cIsIdentChar, (hc ▸ hl : c = '_')]
      constructor
      · simpa [hcr] using readWhileCore_len cIsIdentChar s.input s.col
      · intro _
        simpa [hcr] using readWhileCore_len_lt (r := r) hpc s.col
    · split
      · rename_i hdg
        have hpc : cIsDigit c = true := hc ▸ hdg
        constructor
        · simpa [hcr] using readWhileCore_len cIsDigit s.input s.col
        · intro _
          simpa [hcr] using readWhileCore_len_lt (r := r) hpc s.col
      · exact ⟨le_of_lt (scanOp_len hne _ _), fun _ => scanOp_len hne _ _⟩

theorem nextTokenF_some {n : Nat} {s : LexState} {t : Token} {s' : LexState}
    (h : nextTokenF n s = some (t, s')) :
    s'.input.length ≤ s.input.length ∧
      (t.type ≠ .TOK_EOF → s'.input.length < s.input.length) := by
  unfold nextTokenF at h
  cases ht : skipTriviaF n s with
  | none => rw [ht] at h; simp at h
  | some sT =>
    rw [ht] at h
    simp at h
    have hlen := skipTriviaF_len n s sT ht
    have hs := scanCore_len sT
    have h1 : (scanCore sT).1 = t := by rw [h]
    have h2 : (scanCore sT).2 = s' := by rw [h]
    rw [h1, h2] at hs
    exact ⟨le_trans hs.1 hlen, fun he => lt_of_lt_of_le (hs.2 he) hlen⟩

theorem nextTokenF_suff {n : Nat} {s : LexState}
    (h : s.input.length + 1 ≤ n) : (nextTokenF n s).isSome := by
  unfold nextTokenF
  cases ht : skipTriviaF n s with
  | none => exact absurd (ht ▸ skipTriviaF_suff n s h) (by simp)
  | some sT => simp

theorem tokenizeF_suff :
    ∀ n s, s.input.length + 2 ≤ n → (tokenizeF n s).isSome := by
  intro n
  induction n with
  | zero => intro s h; omega
  | succ n ih =>
    intro s h
    cases ht : nextTokenF (n + 1) s with
    | none => exact absurd (ht ▸ nextTokenF_suff (by omega)) (by simp)
    | some r =>
      obtain ⟨tok, s1⟩ := r
      have hp := nextTokenF_some ht
      simp only [tokenizeF, ht]
      by_cases herr : tok.type = TokenType.TOK_ERROR
      · rw [if_pos herr]
        refine ih s1 ?_
        have := hp.2 (by rw [herr]; decide)
        omega
      · rw [if_neg herr]
        by_cases heof : tok.type = TokenType.TOK_EOF
        · rw [if_pos heof]; simp
        · rw [if_neg heof]
          have hr := ih s1 (by have := hp.2 heof; omega)
          cases htk : tokenizeF n s1 with
          | none => rw [htk] at hr; simp at hr
          | some r2 => obtain ⟨a, b⟩ := r2; simp

theorem scanCore_eof {s : LexState} (h : (scanCore s).1.type = .TOK_EOF) :
    peekc s 0 = '\x00' ∧ scanCore s = (mkTok .TOK_EOF s.line s.col, s) := by
  unfold scanCore at *
  dsimp only at *
  split at h
  · rename_i hq
    rw [if_pos hq]
    exact ⟨hq, rfl⟩
  · split at h
    · exact absurd h (by simpa using keywordType_ne_eof _)
    · split at h
      · exact absurd h (by simp [mkTok])
      · exact absurd h (scanOp_ne_eof s _ _)

theorem tokenizeF_struct :
    ∀ n s ts fs, tokenizeF n s = some (ts, fs) →
      ts ≠ [] ∧ ts.getLast? = some (mkTok .TOK_EOF fs.line fs.col) ∧
        (∀ t ∈ ts.dropLast, t.type ≠ .TOK_EOF) ∧ peekc fs 0 = '\x00' := by
  intro n
  induction n with
  | zero => intro s ts fs h; simp [tokenizeF] at h
  | succ n ih =>
    intro s ts fs h
    cases ht : nextTokenF (n + 1) s with
    | none => simp [tokenizeF, ht] at h
    | some r =>
      obtain ⟨tok, s1⟩ := r
      simp only [tokenizeF, ht] at h
      by_cases herr : tok.type = TokenType.TOK_ERROR
      · rw [if_pos herr] at h
        exact ih s1 ts fs h
      · rw [if_neg herr] at h
        by_cases heof : tok.type = TokenType.TOK_EOF
        · rw [if_pos heof] at h
          rw [Option.some.injEq, Prod.mk.injEq] at h
          obtain ⟨h1, h2⟩ := h
          subst h1
          subst h2
          unfold nextTokenF at ht
          cases htr : skipTriviaF (n + 1) s with
          | none => rw [htr] at ht; simp at ht
          | some sT =>
            rw [htr] at ht
            simp at ht
            have hco : (scanCore sT).1.type = .TOK_EOF := by rw [ht]; exact heof
            have he := scanCore_eof hco
            rw [he.2] at ht
            rw [Prod.mk.injEq] at ht
            obtain ⟨h3, h4⟩ := ht
            subst h4
            refine ⟨by simp, ?_, by simp, he.1⟩
            rw [← h3]
            rfl
        · rw [if_neg heof] at h
          cases htk : tokenizeF n s1 with
          | none => rw [htk] at h; simp at h
          | some r2 =>
            obtain ⟨ts', fs'⟩ := r2
            rw [htk] at h
            rw [Option.some.injEq, Prod.mk.injEq] at h
            obtain ⟨h1, h2⟩ := h
            subst h1
            subst h2
            obtain ⟨hne, hlast, hdrop, hnul⟩ := ih s1 ts' fs' htk
            obtain ⟨a, t, hat⟩ := List.exists_cons_of_ne_nil hne
            subst hat
            refine ⟨by simp, by simpa using hlast, ?_, hnul⟩
            intro u hu
            rw [List.dropLast_cons₂] at hu
            rcases List.mem_cons.mp hu with h | h
            · subst h; exact heof
            · exact hdrop u h

/-! ### Lexer lemmas: line counter and input tracking -/

theorem skipWSCore_inv (l : List Char) : ∀ a b,
    (skipWSCore l a b).2.1 + countNl (skipWSCore l a b).1 = a + countNl l := by
  induction l with
  | nil => intro a b; simp [skipWSCore]
  | cons c r ih =>
    intro a b
    simp only [skipWSCore]
    split
    · rw [ih]
      by_cases hc : c = '\n' <;> simp [countNl, hc] <;> omega
    · simp

theorem skipLineCore_inv (l : List Char) : ∀ a b,
    (skipLineCore l a b).2.1 + countNl (skipLineCore l a b).1 = a + countNl l := by
  induction l with
  | nil => intro a b; simp [skipLineCore]
  | cons c r ih =>
    intro a b
    simp only [skipLineCore]
    split
    · simp
    · rename_i hc
      rw [ih]
      have : ¬c = '\n' := fun hh => hc (Or.inl hh)
      simp [countNl, this]

theorem skipBlockCore_inv (l : List Char) : ∀ a b,
    (skipBlockCore l a b).2.2.1 + countNl (skipBlockCore l a b).2.1 =
      a + countNl l := by
  induction l with
  | nil => intro a b; simp [skipBlockCore]
  | cons c r ih =>
    intro a b
    simp only [skipBlockCore]
    split
    · simp
    · split
      · rename_i hcl
        cases r with
        | nil => exact absurd hcl.2 (by decide)
        | cons d r2 =>
          have hd : d = '/' := by simpa using hcl.2
          have hc : c = '*' := hcl.1
          simp [countNl, hc, hd]
      · rw [ih]
        by_cases hc : c = '\n' <;> simp [countNl, hc] <;> omega

theorem readWhileCore_inv {p : Char → Bool} (hp : ∀ c, p c = true → ¬c = '\n')
    (l : List Char) : ∀ k,
    countNl (readWhileCore p l k).2.1 = countNl l := by
  induction l with
  | nil => intro k; simp [readWhileCore]
  | cons c r ih =>
    intro k
    simp only [readWhileCore]
    split
    · rename_i hc
      rw [ih]
      simp [countNl, hp c hc]
    · rfl

theorem advance1_inv (s : LexState) :
    (advance1 s).line + countNl (advance1 s).input = s.line + countNl s.input := by
  unfold advance1
  split
  · rfl
  · rename_i c r heq
    rw [heq]
    by_cases hc : c = '\n' <;> simp [countNl, hc] <;> omega

theorem skipWhitespace_inv (s : LexState) :
    (skipWhitespace s).line + countNl (skipWhitespace s).input =
      s.line + countNl s.input :=
  skipWSCore_inv s.input s.line s.col

theorem skipComment_inv (s : LexState) :
    (skipComment s).2.line + countNl (skipComment s).2.input =
      s.line + countNl s.input := by
  unfold skipComment
  dsimp only
  split
  · exact skipLineCore_inv s.input s.line s.col
  · split
    · rename_i hc
      have hnn1 : peekc s 1 ≠ '\x00' := by rw [hc.2]; decide
      have h1 : 1 < s.input.length := peekc_ne_nul hnn1
      cases hcr : s.input with
      | nil => rw [hcr] at h1; simp at h1
      | cons c r =>
        cases r with
        | nil => rw [hcr] at h1; simp at h1
        | cons d r2 =>
          have hc0 : c = '/' := by
            have h2 := peekc_cons hcr; rw [hc.1] at h2; exact h2.symm
          have hd : d = '*' := by
            have h2 : peekc s 1 = d := by simp [peekc, hcr]
            rw [hc.2] at h2; exact h2.symm
          have hinv := skipBlockCore_inv r2 s.line (s.col + 2)
          split
          · simp only [List.drop_succ_cons, List.drop_zero]
            rw [hinv]
            simp [countNl, hc0, hd]
          · simp only [List.drop_succ_cons, List.drop_zero]
            rw [hinv]
            simp [countNl, hc0, hd]
    · rfl

theorem cIsIdentChar_ne_nl : ∀ c, cIsIdentChar c = true → ¬c = '\n' := by
  intro c h hc
  rw [hc] at h
  exact absurd h (by decide)

theorem cIsDigit_ne_nl : ∀ c, cIsDigit c = true → ¬c = '\n' := by
  intro c h hc
  rw [hc] at h
  exact absurd h (by decide)

theorem scanOp_inv (s : LexState) (l k : Nat) :
    (scanOp s l k).2.line + countNl (scanOp s l k).2.input =
      s.line + countNl s.input := by
  unfold scanOp
  repeat' first
    | refine ite_n
        (p := fun z : Token × LexState =>
          z.2.line + countNl z.2.input = s.line + countNl s.input) ?_ ?_
    | exact advance1_inv s
    | exact (advance1_inv (advance1 s)).trans (advance1_inv s)

theorem scanCore_inv (s : LexState) :
    (scanCore s).2.line + countNl (scanCore s).2.input =
      s.line + countNl s.input := by
  unfold scanCore
  dsimp only
  split
  · rfl
  · split
    · simpa using readWhileCore_inv cIsIdentChar_ne_nl s.input s.col
    · split
      · simpa using readWhileCore_inv cIsDigit_ne_nl s.input s.col
      · exact scanOp_inv s _ _

theorem skipTriviaF_inv :
    ∀ n s s', skipTriviaF n s = some s' →
      s'.line + countNl s'.input = s.line + countNl s.input := by
  intro n
  induction n with
  | zero => intro s s' h; simp [skipTriviaF] at h
  | succ n ih =>
    intro s s' h
    simp only [skipTriviaF] at h
    split at h
    · rw [ih _ _ h, skipComment_inv, skipWhitespace_inv]
    · cases h
      rw [skipComment_inv, skipWhitespace_inv]

theorem nextTokenF_inv {n : Nat} {s : LexState} {t : Token} {s' : LexState}
    (h : nextTokenF n s = some (t, s')) :
    s'.line + countNl s'.input = s.line + countNl s.input := by
  unfold nextTokenF at h
  cases ht : skipTriviaF n s with
  | none => rw [ht] at h; simp at h
  | some sT =>
    rw [ht] at h
    simp at h
    have h2 : (scanCore sT).2 = s' := by rw [h]
    rw [← h2, scanCore_inv]
    exact skipTriviaF_inv n s sT ht

theorem tokenizeF_inv :
    ∀ n s ts fs, tokenizeF n s = some (ts, fs) →
      fs.line + countNl fs.input = s.line + countNl s.input := by
  intro n
  induction n with
  | zero => intro s ts fs h; simp [tokenizeF] at h
  | succ n ih =>
    intro s ts fs h
    cases ht : nextTokenF (n + 1) s with
    | none => simp [tokenizeF, ht] at h
    | some r =>
      obtain ⟨tok, s1⟩ := r
      simp only [tokenizeF, ht] at h
      by_cases herr : tok.type = TokenType.TOK_ERROR
      · rw [if_pos herr] at h
        rw [ih s1 ts fs h, nextTokenF_inv ht]
      · rw [if_neg herr] at h
        by_cases heof : tok.type = TokenType.TOK_EOF
        · rw [if_pos heof] at h
          rw [Option.some.injEq, Prod.mk.injEq] at h
          rw [← h.2, nextTokenF_inv ht]
        · rw [if_neg heof] at h
          cases htk : tokenizeF n s1 with
          | none => rw [htk] at h; simp at h
          | some r2 =>
            obtain ⟨ts', fs'⟩ := r2
            rw [htk] at h
            rw [Option.some.injEq, Prod.mk.injEq] at h
            rw [← h.2, ih s1 ts' fs' htk, nextTokenF_inv ht]

theorem skipWSCore_sub (l : List Char) : ∀ a b x,
    x ∈ (skipWSCore l a b).1 → x ∈ l := by
  induction l with
  | nil => intro a b x h; simpa [skipWSCore] using h
  | cons c r ih =>
    intro a b x h
    simp only [skipWSCore] at h
    split at h
    · exact List.mem_cons_of_mem c (ih _ _ x h)
    · exact h

theorem skipLineCore_sub (l : List Char) : ∀ a b x,
    x ∈ (skipLineCore l a b).1 → x ∈ l := by
  induction l with
  | nil => intro a b x h; simpa [skipLineCore] using h
  | cons c r ih =>
    intro a b x h
    simp only [skipLineCore] at h
    split at h
    · exact h
    · exact List.mem_cons_of_mem c (ih _ _ x h)

theorem skipBlockCore_sub (l : List Char) : ∀ a b x,
    x ∈ (skipBlockCore l a b).2.1 → x ∈ l := by
  induction l with
  | nil => intro a b x h; simpa [skipBlockCore] using h
  | cons c r ih =>
    intro a b x h
    simp only [skipBlockCore] at h
    split at h
    · exact h
    · split at h
      · exact List.mem_cons_of_mem c (List.drop_subset 1 _ h)
      · exact List.mem_cons_of_mem c (ih _ _ x h)

theorem readWhileCore_sub (p : Char → Bool) (l : List Char) : ∀ k x,
    x ∈ (readWhileCore p l k).2.1 → x ∈ l := by
  induction l with
  | nil => intro k x h; simpa [readWhileCore] using h
  | cons c r ih =>
    intro k x h
    simp only [readWhileCore] at h
    split at h
    · exact List.mem_cons_of_mem c (ih _ x h)
    · exact h

theorem advance1_sub (s : LexState) :
    ∀ x, x ∈ (advance1 s).input → x ∈ s.input := by
  unfold advance1
  split
  · intro x h; exact h
  · rename_i c r heq
    intro x h
    rw [heq]
    exact List.mem_cons_of_mem c h

theorem skipComment_sub (s : LexState) :
    ∀ x, x ∈ (skipComment s).2.input → x ∈ s.input := by
  unfold skipComment
  dsimp only
  split
  · exact fun x h => skipLineCore_sub s.input s.line s.col x h
  · split
    · split
      · exact fun x h =>
          List.drop_subset 2 _ (skipBlockCore_sub (s.input.drop 2) _ _ x h)
      · exact fun x h =>
          List.drop_subset 2 _ (skipBlockCore_sub (s.input.drop 2) _ _ x h)
    · exact fun x h => h

theorem scanOp_sub (s : LexState) (l k : Nat) :
    ∀ x, x ∈ (scanOp s l k).2.input → x ∈ s.input := by
  unfold scanOp
  repeat' first
    | refine ite_n
        (p := fun z : Token × LexState => ∀ x, x ∈ z.2.input → x ∈ s.input) ?_ ?_
    | exact advance1_sub s
    | exact fun x h => advance1_sub s x (advance1_sub (advance1 s) x h)

theorem scanCore_sub (s : LexState) :
    ∀ x, x ∈ (scanCore s).2.input → x ∈ s.input := by
  unfold scanCore
  dsimp only
  split
  · exact fun x h => h
  · split
    · exact fun x h => readWhileCore_sub cIsIdentChar s.input _ x h
    · split
      · exact fun x h => readWhileCore_sub cIsDigit s.input _ x h
      · exact scanOp_sub s _ _

theorem skipTriviaF_sub :
    ∀ n s s', skipTriviaF n s = some s' →
      ∀ x, x ∈ s'.input → x ∈ s.input := by
  intro n
  induction n with
  | zero => intro s s' h; simp [skipTriviaF] at h
  | succ n ih =>
    intro s s' h
    simp only [skipTriviaF] at h
    split at h
    · exact fun x hx =>
        skipWSCore_sub s.input _ _ x (skipComment_sub _ x (ih _ _ h x hx))
    · cases h
      exact fun x hx => skipWSCore_sub s.input _ _ x (skipComment_sub _ x hx)

theorem tokenizeF_sub :
    ∀ n s ts fs, tokenizeF n s = some (ts, fs) →
      ∀ x, x ∈ fs.input → x ∈ s.input := by
  intro n
  induction n with
  | zero => intro s ts fs h; simp [tokenizeF] at h
  | succ n ih =>
    intro s ts fs h
    cases ht : nextTokenF (n + 1) s with
    | none => simp [tokenizeF, ht] at h
    | some r =>
      obtain ⟨tok, s1⟩ := r
      have hsub1 : ∀ x, x ∈ s1.input → x ∈ s.input := by
        unfold nextTokenF at ht
        cases htr : skipTriviaF (n + 1) s with
        | none => rw [htr] at ht; simp at ht
        | some sT =>
          rw [htr] at ht
          simp at ht
          intro x hx
          have h2 : (scanCore sT).2 = s1 := by rw [ht]
          exact skipTriviaF_sub (n + 1) s sT htr x (scanCore_sub sT x (h2 ▸ hx))
      simp only [tokenizeF, ht] at h
      by_cases herr : tok.type = TokenType.TOK_ERROR
      · rw [if_pos herr] at h
        exact fun x hx => hsub1 x (ih s1 ts fs h x hx)
      · rw [if_neg herr] at h
        by_cases heof : tok.type = TokenType.TOK_EOF
        · rw [if_pos heof] at h
          rw [Option.some.injEq, Prod.mk.injEq] at h
          exact fun x hx => hsub1 x (h.2 ▸ hx)
        · rw [if_neg heof] at h
          cases htk : tokenizeF n s1 with
          | none => rw [htk] at h; simp at h
          | some r2 =>
            obtain ⟨ts', fs'⟩ := r2
            rw [htk] at h
            rw [Option.some.injEq, Prod.mk.injEq] at h
            exact fun x hx => hsub1 x (ih s1 ts' fs' htk x (h.2 ▸ hx))

/-! ### Sorting and output lemmas -/

theorem strLtL_asymm : ∀ a b, strLtL a b = true → strLtL b a = false := by
  intro a
  induction a with
  | nil =>
    intro b h
    cases b with
    | nil => simp [strLtL] at h
    | cons d y => simp [strLtL]
  | cons c x ih =>
    intro b h
    cases b with
    | nil => simp [strLtL] at h
    | cons d y =>
      simp only [strLtL] at h ⊢
      by_cases h1 : c < d
      · rw [if_neg (lt_asymm h1), if_pos h1]
      · rw [if_neg h1] at h
        by_cases h2 : d < c
        · rw [if_pos h2] at h; simp at h
        · rw [if_neg h2] at h
          rw [if_neg h2, if_neg h1]
          exact ih y h

theorem pairLe_total : ∀ a b : Nat × String, pairLe a b = true ∨ pairLe b a = true := by
  intro a b
  unfold pairLe strLe
  rcases Nat.lt_trichotomy a.1 b.1 with h | h | h
  · left; simp [h]
  · by_cases hs : strLtL b.2.data a.2.data = true
    · right
      simp [h, strLtL_asymm _ _ hs]
    · left
      simp [h, hs]
  · right; simp [h]

theorem pairLe_line {a b : Nat × String} (h : pairLe a b = true) : a.1 ≤ b.1 := by
  unfold pairLe at h
  simp only [Bool.or_eq_true, decide_eq_true_eq, Bool.and_eq_true] at h
  rcases h with h | h
  · omega
  · omega

theorem insertE_perm (x : Nat × String) (l : List (Nat × String)) :
    (insertE x l).Perm (x :: l) := by
  induction l with
  | nil => exact List.Perm.refl _
  | cons y ys ih =>
    unfold insertE
    split
    · exact List.Perm.refl _
    · exact (List.Perm.cons y ih).trans (List.Perm.swap x y ys)

theorem sortE_perm (l : List (Nat × String)) : (sortE l).Perm l := by
  induction l with
  | nil => exact List.Perm.refl _
  | cons x xs ih =>
    exact (insertE_perm x (sortE xs)).trans (List.Perm.cons x ih)

theorem insertE_pw {x : Nat × String} {l : List (Nat × String)}
    (h : l.Pairwise (fun a b => a.1 ≤ b.1)) :
    (insertE x l).Pairwise (fun a b => a.1 ≤ b.1) := by
  induction l with
  | nil => simp [insertE]
  | cons y ys ih =>
    rw [List.pairwise_cons] at h
    obtain ⟨hy, hys⟩ := h
    unfold insertE
    split
    · rename_i hle
      rw [List.pairwise_cons]
      refine ⟨?_, List.pairwise_cons.mpr ⟨hy, hys⟩⟩
      intro b hb
      rcases List.mem_cons.mp hb with hb | hb
      · subst hb; exact pairLe_line hle
      · exact le_trans (pairLe_line hle) (hy b hb)
    · rename_i hnle
      rw [List.pairwise_cons]
      refine ⟨?_, ih hys⟩
      intro b hb
      have hb2 := (insertE_perm x ys).mem_iff.mp hb
      rcases List.mem_cons.mp hb2 with hb2 | hb2
      · rw [hb2]
        rcases pairLe_total x y with hh | hh
        · exact absurd hh hnle
        · exact pairLe_line hh
      · exact hy b hb2

theorem sortE_pw (l : List (Nat × String)) :
    (sortE l).Pairwise (fun a b => a.1 ≤ b.1) := by
  induction l with
  | nil => simp [sortE]
  | cons x xs ih => exact insertE_pw ih

theorem reject_ne_accept (x : String) : "reject\n" ++ x ≠ "accept\n" := by
  intro h
  have hl : ("reject\n" ++ x).length = ("accept\n" : String).length := by rw [h]
  rw [String.length_append] at hl
  have h7 : ("reject\n" : String).length = 7 := by decide
  have ha : ("accept\n" : String).length = 7 := by decide
  rw [h7, ha] at hl
  have hx0 : x.length = 0 := by omega
  have hxe : x = "" := by
    cases x with
    | mk d =>
      cases d with
      | nil => rfl
      | cons c r => simp [String.length] at hx0
  rw [hxe] at h
  exact absurd h (by decide)

/-! ### Claim C3 -/

/-- C3: for every input text, tokenization is total: with the explicit
fuel `|text| + 2` it succeeds and produces a finite token sequence whose
last element is the single end-of-input token, carrying the lexer's
final line number (when the text contains no NUL byte, that is `1` plus
the number of newline characters; the driver feeds the lexer a text in
which every line ends with a newline). -/
theorem claim_C3_tokenize_total (text : String) :
    ∃ ts fs, tokenizeF (text.data.length + 2) (initLex text) = some (ts, fs) ∧
      ts ≠ [] ∧
      (∀ t ∈ ts.dropLast, t.type ≠ TokenType.TOK_EOF) ∧
      ts.getLast? = some (mkTok .TOK_EOF fs.line fs.col) ∧
      ('\x00' ∉ text.data → fs.input = [] ∧ fs.line = 1 + countNl text.data) := by
  have hs : ((initLex text).input.length + 2) ≤ text.data.length + 2 := by
    simp [initLex]
  have h := tokenizeF_suff (text.data.length + 2) (initLex text) hs
  obtain ⟨r, hr⟩ := Option.isSome_iff_exists.mp h
  obtain ⟨ts, fs⟩ := r
  obtain ⟨hne, hlast, hdrop, hnul⟩ := tokenizeF_struct _ _ _ _ hr
  refine ⟨ts, fs, hr, hne, hdrop, hlast, ?_⟩
  intro hnonul
  have hinp : fs.input = [] := by
    cases hfi : fs.input with
    | nil => rfl
    | cons c r2 =>
      have hx : c ∈ fs.input := by rw [hfi]; exact List.mem_cons_self c r2
      have hmem : c ∈ text.data := tokenizeF_sub _ _ _ _ hr c hx
      have hcnul : c = '\x00' := by
        have hp := peekc_cons hfi
        rw [hnul] at hp
        exact hp.symm
      exact absurd (hcnul ▸ hmem) hnonul
  have hinv := tokenizeF_inv _ _ _ _ hr
  refine ⟨hinp, ?_⟩
  rw [hinp] at hinv
  simp only [initLex, countNl] at hinv
  omega

/-- Witness for C3 at the concrete input `"int x\n"`. -/
theorem claim_C3_tokenize_total_witness :
    ∃ ts fs,
      tokenizeF ("int x\n".data.length + 2) (initLex "int x\n") = some (ts, fs) ∧
      ts ≠ [] ∧
      (∀ t ∈ ts.dropLast, t.type ≠ TokenType.TOK_EOF) ∧
      ts.getLast? = some (mkTok .TOK_EOF fs.line fs.col) ∧
      ('\x00' ∉ "int x\n".data → fs.input = [] ∧ fs.line = 1 + countNl "int x\n".data) :=
  claim_C3_tokenize_total "int x\n"

/-! ### Claim C1 -/

/-- C1 counterexample: on the input `x /*` the unterminated-comment
lexical diagnostic and the parser diagnostic both sit on source line 1,
and the program prints both — two diagnostic lines for one source line,
contradicting the claim's "one diagnostic line per affected source
line". -/
theorem claim_C1_counterexample :
    runF 60 "x /*\n" =
      some "reject\n1 Expected function return type\n1 Unterminated comment\n" ∧
    tokenizeF 60 (initLex "x /*\n") =
      some ([⟨.TOK_ID, "x", 1, 1⟩, ⟨.TOK_EOF, "", 2, 1⟩],
            ⟨[], 2, 1, [(1, "Unterminated comment")]⟩) ∧
    parseTopF [⟨.TOK_ID, "x", 1, 1⟩, ⟨.TOK_EOF, "", 2, 1⟩] 60 =
      some (false, ⟨1, [(1, "Expected function return type")], [1], 0⟩) ∧
    ¬ (([(1, "Expected function return type"), (1, "Unterminated comment")].map
        (fun e : Nat × String => e.1)).Nodup) :=
  ⟨by decide, by decide, by decide, by decide⟩

/-- C1 (amended): whenever the pipeline completes, the program prints
`accept` iff the merged diagnostic list (lexical then parser) is empty;
otherwise it prints `reject` followed by all merged diagnostics sorted
by ascending line number (possibly several diagnostics for one source
line, at most one of them from the parser). -/
theorem claim_C1_verdict (n : Nat) (text : String) (toks : List Token)
    (fs : LexState) (ok : Bool) (pst : PState)
    (h1 : tokenizeF n (initLex text) = some (toks, fs))
    (h2 : parseTopF toks n = some (ok, pst)) :
    ∃ out, runF n text = some out ∧
      (out = "accept\n" ↔ fs.errors ++ pst.errors = []) ∧
      (fs.errors ++ pst.errors ≠ [] →
        out = "reject\n" ++ renderE (sortE (fs.errors ++ pst.errors)) ∧
        (sortE (fs.errors ++ pst.errors)).Pairwise (fun a b => a.1 ≤ b.1) ∧
        (sortE (fs.errors ++ pst.errors)).Perm (fs.errors ++ pst.errors)) := by
  have hok : ok = pst.errors.isEmpty := by
    unfold parseTopF at h2
    cases hc : parseCompUnitF toks n initPState with
    | none => rw [hc] at h2; simp at h2
    | some st0 =>
      rw [hc] at h2
      simp only [Option.map_some', Option.some.injEq, Prod.mk.injEq] at h2
      rw [← h2.1, ← h2.2]
  unfold runF
  rw [h1]
  dsimp only
  rw [h2]
  dsimp only
  by_cases he : fs.errors ++ pst.errors = []
  · have hemp : pst.errors = [] := (List.append_eq_nil.mp he).2
    rw [if_pos ⟨by rw [he]; rfl, by rw [hok, hemp]; rfl⟩]
    exact ⟨"accept\n", rfl, by simp [he], fun hne => absurd he hne⟩
  · rw [if_neg ?_]
    · refine ⟨_, rfl, ?_, ?_⟩
      · constructor
        · intro hcontra
          exact absurd hcontra.symm (Ne.symm (reject_ne_accept _))
        · intro hcontra
          exact absurd hcontra he
      · intro _
        exact ⟨rfl, sortE_pw _, sortE_perm _⟩
    · intro hcond
      exact he (List.isEmpty_iff.mp hcond.1)

/-- Witness for C1 (amended) at the concrete input `x` (one parser
diagnostic, no lexical diagnostics). -/
theorem claim_C1_verdict_witness :
    ∃ out, runF 60 "x\n" = some out ∧
      (out = "accept\n" ↔
        ([] : List (Nat × String)) ++ [(1, "Expected function return type")] = []) ∧
      (([] : List (Nat × String)) ++ [(1, "Expected function return type")] ≠ [] →
        out = "reject\n" ++
          renderE (sortE (([] : List (Nat × String)) ++
            [(1, "Expected function return type")])) ∧
        (sortE (([] : List (Nat × String)) ++
          [(1, "Expected function return type")])).Pairwise
            (fun a b => a.1 ≤ b.1) ∧
        (sortE (([] : List (Nat × String)) ++
          [(1, "Expected function return type")])).Perm
            (([] : List (Nat × String)) ++
              [(1, "Expected function return type")])) :=
  claim_C1_verdict 60 "x\n" [⟨.TOK_ID, "x", 1, 1⟩, ⟨.TOK_EOF, "", 2, 1⟩]
    ⟨[], 2, 1, []⟩ false ⟨1, [(1, "Expected function return type")], [1], 0⟩
    (by decide) (by decide)

/-! ### Claims C5, C6, C7, C8 -/

set_option maxHeartbeats 2000000 in
/-- C5: on `int main() { return 0; }` the lexer and the parser record no
diagnostics and the program prints `accept`. -/
theorem claim_C5_accept_main :
    tokenizeF 300 (initLex "int main() \x7b return 0; \x7d\n") =
      some ([⟨.TOK_INT, "int", 1, 1⟩, ⟨.TOK_ID, "main", 1, 5⟩,
             ⟨.TOK_LPAREN, "", 1, 9⟩, ⟨.TOK_RPAREN, "", 1, 10⟩,
             ⟨.TOK_LBRACE, "", 1, 12⟩, ⟨.TOK_RETURN, "return", 1, 14⟩,
             ⟨.TOK_NUMBER, "0", 1, 21⟩, ⟨.TOK_SEMICOLON, "", 1, 22⟩,
             ⟨.TOK_RBRACE, "", 1, 24⟩, ⟨.TOK_EOF, "", 2, 1⟩],
            ⟨[], 2, 1, []⟩) ∧
    parseTopF [⟨.TOK_INT, "int", 1, 1⟩, ⟨.TOK_ID, "main", 1, 5⟩,
               ⟨.TOK_LPAREN, "", 1, 9⟩, ⟨.TOK_RPAREN, "", 1, 10⟩,
               ⟨.TOK_LBRACE, "", 1, 12⟩, ⟨.TOK_RETURN, "return", 1, 14⟩,
               ⟨.TOK_NUMBER, "0", 1, 21⟩, ⟨.TOK_SEMICOLON, "", 1, 22⟩,
               ⟨.TOK_RBRACE, "", 1, 24⟩, ⟨.TOK_EOF, "", 2, 1⟩] 300 =
      some (true, ⟨9, [], [], 0⟩) ∧
    runF 300 "int main() \x7b return 0; \x7d\n" = some "accept\n" :=
  ⟨rfl, rfl, rfl⟩

/-- C7: `void f() { break; }` is rejected with the `break not in loop`
diagnostic on the `break;` line, while the same `break` inside a `while`
body (loop-nesting counter positive) is accepted. -/
theorem claim_C7_break_outside_loop :
    runF 300 "void f() \x7b break; \x7d\n" =
      some "reject\n1 break not in loop\n" ∧
    runF 300 "void f() \x7b while (1) break; \x7d\n" = some "accept\n" :=
  ⟨rfl, rfl⟩

theorem scanOp_amp {s : LexState} {l k : Nat} (h0 : peekc s 0 = '&')
    (h1 : peekc s 1 ≠ '&') :
    (scanOp s l k).1.type = .TOK_ERROR ∧ (scanOp s l k).2.errors = s.errors := by
  have hnn : peekc s 0 ≠ '\x00' := by rw [h0]; decide
  have hne : s.input ≠ [] := List.ne_nil_of_length_pos (peekc_ne_nul hnn)
  obtain ⟨c, r, hcr⟩ := List.exists_cons_of_ne_nil hne
  have hpeek : peekc (advance1 s) 0 = peekc s 1 := by
    simp [peekc, advance1, hcr]
  unfold scanOp
  simp only [h0]
  simp only [show ¬(('&' : Char) = '+') from by decide, if_false,
    show ¬(('&' : Char) = '-') from by decide,
    show ¬(('&' : Char) = '*') from by decide,
    show ¬(('&' : Char) = '/') from by decide,
    show ¬(('&' : Char) = '%') from by decide,
    show ¬(('&' : Char) = '(') from by decide,
    show ¬(('&' : Char) = ')') from by decide,
    show ¬(('&' : Char) = '\x7b') from by decide,
    show ¬(('&' : Char) = '\x7d') from by decide,
    show ¬(('&' : Char) = ';') from by decide,
    show ¬(('&' : Char) = ',') from by decide,
    show ¬(('&' : Char) = '<') from by decide,
    show ¬(('&' : Char) = '>') from by decide,
    show ¬(('&' : Char) = '=') from by decide,
    show ¬(('&' : Char) = '!') from by decide,
    show (('&' : Char) = '&') from rfl, if_true]
  unfold twoCharOp
  rw [if_neg (by rw [hpeek]; exact h1)]
  exact ⟨rfl, by simp [advance1, hcr]⟩

theorem scanOp_pipe {s : LexState} {l k : Nat} (h0 : peekc s 0 = '|')
    (h1 : peekc s 1 ≠ '|') :
    (scanOp s l k).1.type = .TOK_ERROR ∧ (scanOp s l k).2.errors = s.errors := by
  have hnn : peekc s 0 ≠ '\x00' := by rw [h0]; decide
  have hne : s.input ≠ [] := List.ne_nil_of_length_pos (peekc_ne_nul hnn)
  obtain ⟨c, r, hcr⟩ := List.exists_cons_of_ne_nil hne
  have hpeek : peekc (advance1 s) 0 = peekc s 1 := by
    simp [peekc, advance1, hcr]
  unfold scanOp
  simp only [h0]
  simp only [show ¬(('|' : Char) = '+') from by decide, if_false,
    show ¬(('|' : Char) = '-') from by decide,
    show ¬(('|' : Char) = '*') from by decide,
    show ¬(('|' : Char) = '/') from by decide,
    show ¬(('|' : Char) = '%') from by decide,
    show ¬(('|' : Char) = '(') from by decide,
    show ¬(('|' : Char) = ')') from by decide,
    show ¬(('|' : Char) = '\x7b') from by decide,
    show ¬(('|' : Char) = '\x7d') from by decide,
    show ¬(('|' : Char) = ';') from by decide,
    show ¬(('|' : Char) = ',') from by decide,
    show ¬(('|' : Char) = '<') from by decide,
    show ¬(('|' : Char) = '>') from by decide,
    show ¬(('|' : Char) = '=') from by decide,
    show ¬(('|' : Char) = '!') from by decide,
    show ¬(('|' : Char) = '&') from by decide,
    show (('|' : Char) = '|') from rfl, if_true]
  unfold twoCharOp
  rw [if_neg (by rw [hpeek]; exact h1)]
  exact ⟨rfl, by simp [advance1, hcr]⟩

theorem tokenizeF_no_error :
    ∀ n s ts fs, tokenizeF n s = some (ts, fs) →
      ∀ t ∈ ts, t.type ≠ .TOK_ERROR := by
  intro n
  induction n with
  | zero => intro s ts fs h; simp [tokenizeF] at h
  | succ n ih =>
    intro s ts fs h
    cases ht : nextTokenF (n + 1) s with
    | none => simp [tokenizeF, ht] at h
    | some r =>
      obtain ⟨tok, s1⟩ := r
      simp only [tokenizeF, ht] at h
      by_cases herr : tok.type = TokenType.TOK_ERROR
      · rw [if_pos herr] at h; exact ih s1 ts fs h
      · rw [if_neg herr] at h
        by_cases heof : tok.type = TokenType.TOK_EOF
        · rw [if_pos heof] at h
          rw [Option.some.injEq, Prod.mk.injEq] at h
          intro t htm
          rw [← h.1] at htm
          have : t = tok := List.mem_singleton.mp htm
          rw [this]
          exact herr
        · rw [if_neg heof] at h
          cases htk : tokenizeF n s1 with
          | none => rw [htk] at h; simp at h
          | some r2 =>
            obtain ⟨ts', fs'⟩ := r2
            rw [htk] at h
            rw [Option.some.injEq, Prod.mk.injEq] at h
            intro t htm
            rw [← h.1] at htm
            rcases List.mem_cons.mp htm with hm | hm
            · rw [hm]; exact herr
            · exact ih s1 ts' fs' htk t hm

/-- C6 counterexample: the input `int main() { return 0 &; }` contains a
`&` not followed by `&`, yet the program records no diagnostic at all
and prints `accept` — the error token is silently dropped by the
driver's `if (tok.type == TOK_ERROR) continue;`. -/
theorem claim_C6_counterexample :
    '&' ∈ "int main() \x7b return 0 &; \x7d\n".data ∧
    runF 300 "int main() \x7b return 0 &; \x7d\n" = some "accept\n" :=
  ⟨by decide, rfl⟩

/-- C6 (amended): a `&` not followed by `&`, or a `|` not followed by
`|`, is tokenized as a `TOK_ERROR` token and no lexical diagnostic is
recorded for it; the driver then discards every `TOK_ERROR` token, so
the character leaves no trace in the token sequence or in the diagnostic
sets, and the verdict is decided by the remaining tokens alone. -/
theorem claim_C6_amended :
    (∀ (s : LexState) (l k : Nat), peekc s 0 = '&' → peekc s 1 ≠ '&' →
      (scanOp s l k).1.type = .TOK_ERROR ∧ (scanOp s l k).2.errors = s.errors) ∧
    (∀ (s : LexState) (l k : Nat), peekc s 0 = '|' → peekc s 1 ≠ '|' →
      (scanOp s l k).1.type = .TOK_ERROR ∧ (scanOp s l k).2.errors = s.errors) ∧
    (∀ n s ts fs, tokenizeF n s = some (ts, fs) →
      ∀ t ∈ ts, t.type ≠ .TOK_ERROR) :=
  ⟨fun _ _ _ h0 h1 => scanOp_amp h0 h1,
   fun _ _ _ h0 h1 => scanOp_pipe h0 h1,
   tokenizeF_no_error⟩

/-- Witness for C6 (amended) at a concrete lexer state sitting on `&;`. -/
theorem claim_C6_amended_witness :
    (scanOp ⟨['&', ';'], 1, 1, []⟩ 1 1).1.type = .TOK_ERROR ∧
      (scanOp ⟨['&', ';'], 1, 1, []⟩ 1 1).2.errors =
        (⟨['&', ';'], 1, 1, []⟩ : LexState).errors :=
  claim_C6_amended.1 ⟨['&', ';'], 1, 1, []⟩ 1 1 (by decide) (by decide)

theorem skipBlockCore_unterminated (l : List Char) :
    ∀ a b, hasClose l = false → '\x00' ∉ l →
      (skipBlockCore l a b).1 = false ∧ (skipBlockCore l a b).2.1 = [] := by
  induction l with
  | nil => intro a b _ _; simp [skipBlockCore]
  | cons c r ih =>
    intro a b hcl hnul
    have hc : ¬c = '\x00' := fun hh => hnul (hh ▸ List.mem_cons_self c r)
    simp only [skipBlockCore, if_neg hc]
    cases r with
    | nil =>
      rw [if_neg (by simp)]
      simp [skipBlockCore]
    | cons d r2 =>
      have hcond : ¬(c = '*' ∧ d = '/') := by
        intro hh
        rw [hasClose, if_pos hh] at hcl
        simp at hcl
      have hcl2 : hasClose (d :: r2) = false := by
        rw [hasClose, if_neg hcond] at hcl
        exact hcl
      rw [if_neg (by simpa using hcond)]
      exact ih _ _ hcl2 (fun hh => hnul (List.mem_cons_of_mem c hh))

theorem skipComment_unterminated {s : LexState} (h0 : peekc s 0 = '/')
    (h1 : peekc s 1 = '*') (hcl : hasClose (s.input.drop 2) = false)
    (hnul : '\x00' ∉ s.input.drop 2) :
    (skipComment s).1 = false ∧ (skipComment s).2.input = [] ∧
      (skipComment s).2.errors =
        s.errors ++ [(s.line, "Unterminated comment")] := by
  have hns : ¬(peekc s 0 = '/' ∧ peekc s 1 = '/') := by
    intro hh
    rw [h1] at hh
    exact absurd hh.2 (by decide)
  have hu := skipBlockCore_unterminated (s.input.drop 2) s.line (s.col + 2) hcl hnul
  unfold skipComment
  dsimp only
  rw [if_neg hns, if_pos ⟨h0, h1⟩, if_neg (by rw [hu.1]; simp)]
  exact ⟨rfl, hu.2, rfl⟩

/-- C8: a block comment never closed before end-of-input makes
`skipComment` consume the whole remaining input, record exactly one
`Unterminated comment` diagnostic at the comment's starting line and
yield no further tokens; on the concrete scenario
`int f() { /* unterminated` the program prints `reject` with that
diagnostic on line 1 and the token sequence stops right after the `{`. -/
theorem claim_C8_unterminated_comment :
    (∀ s : LexState, peekc s 0 = '/' → peekc s 1 = '*' →
      hasClose (s.input.drop 2) = false → '\x00' ∉ s.input.drop 2 →
      (skipComment s).1 = false ∧ (skipComment s).2.input = [] ∧
        (skipComment s).2.errors =
          s.errors ++ [(s.line, "Unterminated comment")]) ∧
    tokenizeF 300 (initLex "int f() \x7b /* unterminated\n") =
      some ([⟨.TOK_INT, "int", 1, 1⟩, ⟨.TOK_ID, "f", 1, 5⟩,
             ⟨.TOK_LPAREN, "", 1, 6⟩, ⟨.TOK_RPAREN, "", 1, 7⟩,
             ⟨.TOK_LBRACE, "", 1, 9⟩, ⟨.TOK_EOF, "", 2, 1⟩],
            ⟨[], 2, 1, [(1, "Unterminated comment")]⟩) ∧
    runF 300 "int f() \x7b /* unterminated\n" =
      some "reject\n1 Unterminated comment\n2 Lack of '\x7d'\n" :=
  ⟨fun _ h0 h1 hcl hnul => skipComment_unterminated h0 h1 hcl hnul,
   rfl, rfl⟩

/-- Witness for C8 at a concrete lexer state opening an unclosed block
comment. -/
theorem claim_C8_unterminated_comment_witness :
    (skipComment ⟨['/', '*', 'a'], 3, 1, []⟩).1 = false ∧
      (skipComment ⟨['/', '*', 'a'], 3, 1, []⟩).2.input = [] ∧
      (skipComment ⟨['/', '*', 'a'], 3, 1, []⟩).2.errors =
        (⟨['/', '*', 'a'], 3, 1, []⟩ : LexState).errors ++
          [((⟨['/', '*', 'a'], 3, 1, []⟩ : LexState).line, "Unterminated comment")] :=
  claim_C8_unterminated_comment.1 ⟨['/', '*', 'a'], 3, 1, []⟩
    (by decide) (by decide) (by decide) (by decide)

/-! ### Parser helper lemmas -/

theorem PMono_rfl (st : PState) : PMono st st := ⟨le_refl _, rfl, fun h => h⟩

theorem PMono_trans {a b c : PState} (h1 : PMono a b) (h2 : PMono b c) :
    PMono a c :=
  ⟨le_trans h1.1 h2.1, by rw [h2.2.1, h1.2.1], fun hi => h2.2.2 (h1.2.2 hi)⟩

theorem advanceP_pos_le (toks : List Token) (st : PState) :
    st.pos ≤ (advanceP toks st).pos := by
  unfold advanceP
  split <;> simp

theorem advanceP_pos_eq {toks : List Token} {st : PState}
    (h : st.pos < toks.length) : (advanceP toks st).pos = st.pos + 1 := by
  unfold advanceP
  rw [if_pos h]

theorem advanceP_errors (toks : List Token) (st : PState) :
    (advanceP toks st).errors = st.errors := by
  unfold advanceP
  split <;> rfl

theorem advanceP_errLines (toks : List Token) (st : PState) :
    (advanceP toks st).errLines = st.errLines := by
  unfold advanceP
  split <;> rfl

theorem advanceP_depth (toks : List Token) (st : PState) :
    (advanceP toks st).loopDepth = st.loopDepth := by
  unfold advanceP
  split <;> rfl

theorem advanceP_mono (toks : List Token) (st : PState) :
    PMono st (advanceP toks st) := by
  refine ⟨advanceP_pos_le toks st, advanceP_depth toks st, ?_⟩
  intro hi
  unfold ErrInv at *
  rw [advanceP_errors, advanceP_errLines]
  exact hi

theorem addErrorP_pos (toks : List Token) (st : PState) (m : String) :
    (addErrorP toks st m).pos = st.pos := by
  unfold addErrorP
  dsimp only
  split <;> rfl

theorem addErrorP_depth (toks : List Token) (st : PState) (m : String) :
    (addErrorP toks st m).loopDepth = st.loopDepth := by
  unfold addErrorP
  dsimp only
  split <;> rfl

theorem addErrorP_errinv {toks : List Token} {st : PState} {m : String}
    (hi : ErrInv st) : ErrInv (addErrorP toks st m) := by
  unfold addErrorP
  dsimp only
  split
  · exact hi
  · rename_i hnot
    constructor
    · simp only [List.map_append]
      rw [hi.1]
      rfl
    · rw [List.nodup_append]
      refine ⟨hi.2, List.nodup_singleton _, ?_⟩
      intro a ha hb
      rw [List.mem_singleton] at hb
      exact hnot (hb ▸ ha)

theorem addErrorP_mono (toks : List Token) (st : PState) (m : String) :
    PMono st (addErrorP toks st m) :=
  ⟨le_of_eq (addErrorP_pos toks st m).symm, addErrorP_depth toks st m,
   fun hi => addErrorP_errinv hi⟩

theorem consumeP_2_mono (toks : List Token) (st : PState) (ty : TokenType)
    (m : String) : PMono st (consumeP toks st ty m).2 := by
  unfold consumeP
  split
  · exact advanceP_mono toks st
  · exact addErrorP_mono toks st m

theorem tokTy_pos {toks : List Token} {a b : PState} {k : Nat}
    (h : a.pos = b.pos) : tokTy toks a k = tokTy toks b k := by
  unfold tokTy peekT
  rw [h]

theorem wf_pos {toks : List Token} {st : PState} (hw : WfToks toks)
    (h : tokTy toks st 0 ≠ .TOK_EOF) : st.pos < toks.length := by
  by_contra hk
  apply h
  unfold tokTy peekT
  rw [if_neg (by omega)]
  exact hw.2

theorem state_to_mono {st st' : PState}
    (h : st.pos ≤ st'.pos ∧ st'.errors = st.errors ∧
      st'.errLines = st.errLines ∧ st'.loopDepth = st.loopDepth) :
    PMono st st' := by
  refine ⟨h.1, h.2.2.2, ?_⟩
  intro hi
  unfold ErrInv at *
  rw [h.2.1, h.2.2.1]
  exact hi

theorem skipFnSyncF_state (toks : List Token) :
    ∀ n st st', skipFnSyncF toks n st = some st' →
      st.pos ≤ st'.pos ∧ st'.errors = st.errors ∧
        st'.errLines = st.errLines ∧ st'.loopDepth = st.loopDepth := by
  intro n
  induction n with
  | zero => intro st st' h; simp [skipFnSyncF] at h
  | succ n ih =>
    intro st st' h
    simp only [skipFnSyncF] at h
    split at h
    · cases h; exact ⟨le_refl _, rfl, rfl, rfl⟩
    · obtain ⟨h1, h2, h3, h4⟩ := ih _ _ h
      exact ⟨le_trans (advanceP_pos_le toks st) h1,
        h2.trans (advanceP_errors toks st),
        h3.trans (advanceP_errLines toks st),
        h4.trans (advanceP_depth toks st)⟩

theorem skipFnSyncF_st (toks : List Token) {n : Nat} {st st' : PState}
    (h : skipFnSyncF toks n st = some st')
    (h1 : tokTy toks st 0 ≠ .TOK_EOF) (h2 : tokTy toks st 0 ≠ .TOK_INT)
    (h3 : tokTy toks st 0 ≠ .TOK_VOID) (hp : st.pos < toks.length) :
    st.pos < st'.pos := by
  cases n with
  | zero => simp [skipFnSyncF] at h
  | succ n =>
    simp only [skipFnSyncF] at h
    rw [if_neg (by tauto)] at h
    have := (skipFnSyncF_state toks n _ _ h).1
    rw [advanceP_pos_eq hp] at this
    omega

theorem skipFnSyncF_suff (toks : List Token) (hw : WfToks toks) :
    ∀ n st, toks.length - st.pos + 1 ≤ n → (skipFnSyncF toks n st).isSome := by
  intro n
  induction n with
  | zero => intro st h; omega
  | succ n ih =>
    intro st h
    simp only [skipFnSyncF]
    split
    · simp
    · rename_i hc
      have hne : tokTy toks st 0 ≠ .TOK_EOF := fun hh => hc (Or.inl hh)
      have hp := wf_pos hw hne
      apply ih
      rw [advanceP_pos_eq hp]
      omega

theorem skipSigSyncF_state (toks : List Token) :
    ∀ n st st', skipSigSyncF toks n st = some st' →
      st.pos ≤ st'.pos ∧ st'.errors = st.errors ∧
        st'.errLines = st.errLines ∧ st'.loopDepth = st.loopDepth := by
  intro n
  induction n with
  | zero => intro st st' h; simp [skipSigSyncF] at h
  | succ n ih =>
    intro st st' h
    simp only [skipSigSyncF] at h
    split at h
    · cases h; exact ⟨le_refl _, rfl, rfl, rfl⟩
    · obtain ⟨h1, h2, h3, h4⟩ := ih _ _ h
      exact ⟨le_trans (advanceP_pos_le toks st) h1,
        h2.trans (advanceP_errors toks st),
        h3.trans (advanceP_errLines toks st),
        h4.trans (advanceP_depth toks st)⟩

theorem skipSigSyncF_suff (toks : List Token) (hw : WfToks toks) :
    ∀ n st, toks.length - st.pos + 1 ≤ n → (skipSigSyncF toks n st).isSome := by
  intro n
  induction n with
  | zero => intro st h; omega
  | succ n ih =>
    intro st h
    simp only [skipSigSyncF]
    split
    · simp
    · rename_i hc
      have hne : tokTy toks st 0 ≠ .TOK_EOF := fun hh => hc (Or.inl hh)
      have hp := wf_pos hw hne
      apply ih
      rw [advanceP_pos_eq hp]
      omega

theorem skipParenSyncF_state (toks : List Token) :
    ∀ n st st', skipParenSyncF toks n st = some st' →
      st.pos ≤ st'.pos ∧ st'.errors = st.errors ∧
        st'.errLines = st.errLines ∧ st'.loopDepth = st.loopDepth := by
  intro n
  induction n with
  | zero => intro st st' h; simp [skipParenSyncF] at h
  | succ n ih =>
    intro st st' h
    simp only [skipParenSyncF] at h
    split at h
    · cases h; exact ⟨le_refl _, rfl, rfl, rfl⟩
    · obtain ⟨h1, h2, h3, h4⟩ := ih _ _ h
      exact ⟨le_trans (advanceP_pos_le toks st) h1,
        h2.trans (advanceP_errors toks st),
        h3.trans (advanceP_errLines toks st),
        h4.trans (advanceP_depth toks st)⟩

theorem skipParenSyncF_suff (toks : List Token) (hw : WfToks toks) :
    ∀ n st, toks.length - st.pos + 1 ≤ n → (skipParenSyncF toks n st).isSome := by
  intro n
  induction n with
  | zero => intro st h; omega
  | succ n ih =>
    intro st h
    simp only [skipParenSyncF]
    split
    · simp
    · rename_i hc
      have hne : tokTy toks st 0 ≠ .TOK_EOF := fun hh => hc (Or.inr (Or.inl hh))
      have hp := wf_pos hw hne
      apply ih
      rw [advanceP_pos_eq hp]
      omega

theorem skipStmtSyncF_state (toks : List Token) :
    ∀ n st st', skipStmtSyncF toks n st = some st' →
      st.pos ≤ st'.pos ∧ st'.errors = st.errors ∧
        st'.errLines = st.errLines ∧ st'.loopDepth = st.loopDepth := by
  intro n
  induction n with
  | zero => intro st st' h; simp [skipStmtSyncF] at h
  | succ n ih =>
    intro st st' h
    simp only [skipStmtSyncF] at h
    split at h
    · cases h; exact ⟨le_refl _, rfl, rfl, rfl⟩
    · obtain ⟨h1, h2, h3, h4⟩ := ih _ _ h
      exact ⟨le_trans (advanceP_pos_le toks st) h1,
        h2.trans (advanceP_errors toks st),
        h3.trans (advanceP_errLines toks st),
        h4.trans (advanceP_depth toks st)⟩

theorem skipStmtSyncF_st (toks : List Token) {n : Nat} {st st' : PState}
    (h : skipStmtSyncF toks n st = some st')
    (h1 : tokTy toks st 0 ≠ .TOK_SEMICOLON) (h2 : tokTy toks st 0 ≠ .TOK_EOF)
    (h3 : tokTy toks st 0 ≠ .TOK_RBRACE) (hp : st.pos < toks.length) :
    st.pos < st'.pos := by
  cases n with
  | zero => simp [skipStmtSyncF] at h
  | succ n =>
    simp only [skipStmtSyncF] at h
    rw [if_neg (by tauto)] at h
    have := (skipStmtSyncF_state toks n _ _ h).1
    rw [advanceP_pos_eq hp] at this
    omega

theorem skipStmtSyncF_suff (toks : List Token) (hw : WfToks toks) :
    ∀ n st, toks.length - st.pos + 1 ≤ n → (skipStmtSyncF toks n st).isSome := by
  intro n
  induction n with
  | zero => intro st h; omega
  | succ n ih =>
    intro st h
    simp only [skipStmtSyncF]
    split
    · simp
    · rename_i hc
      have hne : tokTy toks st 0 ≠ .TOK_EOF := fun hh => hc (Or.inr (Or.inl hh))
      have hp := wf_pos hw hne
      apply ih
      rw [advanceP_pos_eq hp]
      omega

theorem recoverStmtF_state (toks : List Token) {n : Nat} {st st' : PState}
    (h : recoverStmtF toks n st = some st') :
    st.pos ≤ st'.pos ∧ st'.errors = st.errors ∧
      st'.errLines = st.errLines ∧ st'.loopDepth = st.loopDepth := by
  unfold recoverStmtF at h
  cases hs : skipStmtSyncF toks n st with
  | none => rw [hs] at h; simp at h
  | some st1 =>
    rw [hs] at h
    simp only [Option.map_some'] at h
    obtain ⟨h1, h2, h3, h4⟩ := skipStmtSyncF_state toks n _ _ hs
    split at h <;> cases h
    · exact ⟨le_trans h1 (advanceP_pos_le toks st1),
        (advanceP_errors toks st1).trans h2,
        (advanceP_errLines toks st1).trans h3,
        (advanceP_depth toks st1).trans h4⟩
    · exact ⟨h1, h2, h3, h4⟩

theorem recoverStmtF_mono (toks : List Token) {n : Nat} {st st' : PState}
    (h : recoverStmtF toks n st = some st') : PMono st st' :=
  state_to_mono (recoverStmtF_state toks h)

theorem recoverStmtF_st (toks : List Token) {n : Nat} {st st' : PState}
    (h : recoverStmtF toks n st = some st')
    (h1 : tokTy toks st 0 ≠ .TOK_SEMICOLON) (h2 : tokTy toks st 0 ≠ .TOK_EOF)
    (h3 : tokTy toks st 0 ≠ .TOK_RBRACE) (hp : st.pos < toks.length) :
    st.pos < st'.pos := by
  unfold recoverStmtF at h
  cases hs : skipStmtSyncF toks n st with
  | none => rw [hs] at h; simp at h
  | some st1 =>
    rw [hs] at h
    simp only [Option.map_some'] at h
    have hst := skipStmtSyncF_st toks hs h1 h2 h3 hp
    split at h <;> cases h
    · exact lt_of_lt_of_le hst (advanceP_pos_le toks st1)
    · exact hst

theorem recoverStmtF_suff (toks : List Token) (hw : WfToks toks) {n : Nat}
    (st : PState) (h : toks.length - st.pos + 1 ≤ n) :
    (recoverStmtF toks n st).isSome := by
  unfold recoverStmtF
  cases hs : skipStmtSyncF toks n st with
  | none => exact absurd (hs ▸ skipStmtSyncF_suff toks hw n st h) (by simp)
  | some st1 => simp

theorem finishStmtF_mono (toks : List Token) {n : Nat} {st st' : PState}
    (h : finishStmtF toks n st = some st') : PMono st st' := by
  unfold finishStmtF at h
  split at h
  · cases h; exact advanceP_mono toks st
  · exact PMono_trans (addErrorP_mono toks st _) (recoverStmtF_mono toks h)

theorem finishStmtF_st (toks : List Token) {n : Nat} {st st' : PState}
    (h : finishStmtF toks n st = some st')
    (h2 : tokTy toks st 0 ≠ .TOK_EOF) (h3 : tokTy toks st 0 ≠ .TOK_RBRACE)
    (hp : st.pos < toks.length) : st.pos < st'.pos := by
  unfold finishStmtF at h
  split at h
  · cases h; rw [advanceP_pos_eq hp]; omega
  · rename_i h1
    have hpe : (addErrorP toks st "Lack of ';'").pos = st.pos :=
      addErrorP_pos toks st _
    have hty : ∀ k, tokTy toks (addErrorP toks st "Lack of ';'") k =
        tokTy toks st k := fun k => tokTy_pos hpe
    have := recoverStmtF_st toks h (by rw [hty]; exact h1) (by rw [hty]; exact h2)
      (by rw [hty]; exact h3) (by rw [hpe]; exact hp)
    omega

theorem finishStmtF_suff (toks : List Token) (hw : WfToks toks) {n : Nat}
    (st : PState) (h : toks.length - st.pos + 1 ≤ n) :
    (finishStmtF toks n st).isSome := by
  unfold finishStmtF
  split
  · simp
  · exact recoverStmtF_suff toks hw _ (by rw [addErrorP_pos]; exact h)

theorem parseParamP_mono (toks : List Token) (st : PState) :
    PMono st (parseParamP toks st) := by
  unfold parseParamP
  exact PMono_trans (consumeP_2_mono toks st _ _) (consumeP_2_mono toks _ _ _)

theorem parseParamLoopF_mono (toks : List Token) :
    ∀ n st st', parseParamLoopF toks n st = some st' → PMono st st' := by
  intro n
  induction n with
  | zero => intro st st' h; simp [parseParamLoopF] at h
  | succ n ih =>
    intro st st' h
    simp only [parseParamLoopF] at h
    split at h
    · exact PMono_trans
        (PMono_trans (advanceP_mono toks st) (parseParamP_mono toks _)) (ih _ _ h)
    · cases h; exact PMono_rfl st

theorem parseParamLoopF_suff (toks : List Token) (hw : WfToks toks) :
    ∀ n st, toks.length - st.pos + 1 ≤ n → (parseParamLoopF toks n st).isSome := by
  intro n
  induction n with
  | zero => intro st h; omega
  | succ n ih =>
    intro st h
    simp only [parseParamLoopF]
    split
    · rename_i hc
      have hne : tokTy toks st 0 ≠ .TOK_EOF := by rw [hc]; decide
      have hp := wf_pos hw hne
      apply ih
      have h1 := (parseParamP_mono toks (advanceP toks st)).1
      rw [advanceP_pos_eq hp] at h1
      omega
    · simp
/-! ### Monotonicity of the parser routines (induction on fuel) -/

theorem monoZero : MonoProps 0 := by
  constructor <;>
    (intro toks st st' h
     simp [parsePrimaryF, parseArgListF, parseArgsF, parseUnaryF, parseMulF,
       parseMulLoopF, parseAddF, parseAddLoopF, parseRelF, parseRelLoopF,
       parseLAndF, parseLAndLoopF, parseLOrF, parseLOrLoopF, parseExprF,
       parseBlockF, parseBlockLoopF, parseHeadF, parseDeclTailF,
       parseAssignTailF, parseCallTailF, parseStmtF, parseFuncDefF,
       parseCompUnitF] at h)

theorem monoStep {n : Nat} (ih : MonoProps n) : MonoProps (n + 1) := by
  have hprimary : ∀ toks st st', parsePrimaryF toks (n + 1) st = some st' →
      PMono st st' := by
    intro toks st st' h
    simp only [parsePrimaryF] at h
    split at h
    · split at h
      · cases h2 : parseArgListF toks n (advanceP toks (advanceP toks st)) with
        | none => rw [h2] at h; simp at h
        | some st4 =>
          rw [h2] at h
          try dsimp only at h
          cases h
          exact PMono_trans (advanceP_mono toks st)
            (PMono_trans (advanceP_mono toks _)
              (PMono_trans (ih.argList _ _ _ h2) (consumeP_2_mono toks _ _ _)))
      · cases h; exact advanceP_mono toks st
    · split at h
      · cases h; exact advanceP_mono toks st
      · split at h
        · cases h2 : parseExprF toks n (advanceP toks st) with
          | none => rw [h2] at h; simp at h
          | some st1 =>
            rw [h2] at h
            try dsimp only at h
            cases h
            exact PMono_trans (advanceP_mono toks st)
              (PMono_trans (ih.expr _ _ _ h2) (consumeP_2_mono toks _ _ _))
        · cases h; exact addErrorP_mono toks st _
  have hargList : ∀ toks st st', parseArgListF toks (n + 1) st = some st' →
      PMono st st' := by
    intro toks st st' h
    simp only [parseArgListF] at h
    split at h
    · cases h; exact PMono_rfl st
    · cases h2 : parseExprF toks n st with
      | none => rw [h2] at h; simp at h
      | some st1 =>
        rw [h2] at h
        try dsimp only at h
        exact PMono_trans (ih.expr _ _ _ h2) (ih.args _ _ _ h)
  have hargs : ∀ toks st st', parseArgsF toks (n + 1) st = some st' →
      PMono st st' := by
    intro toks st st' h
    simp only [parseArgsF] at h
    split at h
    · cases h2 : parseExprF toks n (advanceP toks st) with
      | none => rw [h2] at h; simp at h
      | some st1 =>
        rw [h2] at h
        try dsimp only at h
        exact PMono_trans (advanceP_mono toks st)
          (PMono_trans (ih.expr _ _ _ h2) (ih.args _ _ _ h))
    · cases h; exact PMono_rfl st
  have hunary : ∀ toks st st', parseUnaryF toks (n + 1) st = some st' →
      PMono st st' := by
    intro toks st st' h
    simp only [parseUnaryF] at h
    split at h
    · exact PMono_trans (advanceP_mono toks st) (ih.unary _ _ _ h)
    · exact ih.primary _ _ _ h
  have hmul : ∀ toks st st', parseMulF toks (n + 1) st = some st' →
      PMono st st' := by
    intro toks st st' h
    simp only [parseMulF] at h
    cases h1 : parseUnaryF toks n st with
    | none => rw [h1] at h; simp at h
    | some st1 =>
      rw [h1] at h
      try dsimp only at h
      exact PMono_trans (ih.unary _ _ _ h1) (ih.mulLoop _ _ _ h)
  have hmulLoop : ∀ toks st st', parseMulLoopF toks (n + 1) st = some st' →
      PMono st st' := by
    intro toks st st' h
    simp only [parseMulLoopF] at h
    split at h
    · cases h2 : parseUnaryF toks n (advanceP toks st) with
      | none => rw [h2] at h; simp at h
      | some st1 =>
        rw [h2] at h
        try dsimp only at h
        exact PMono_trans (advanceP_mono toks st)
          (PMono_trans (ih.unary _ _ _ h2) (ih.mulLoop _ _ _ h))
    · cases h; exact PMono_rfl st
  have hadd : ∀ toks st st', parseAddF toks (n + 1) st = some st' →
      PMono st st' := by
    intro toks st st' h
    simp only [parseAddF] at h
    cases h1 : parseMulF toks n st with
    | none => rw [h1] at h; simp at h
    | some st1 =>
      rw [h1] at h
      try dsimp only at h
      exact PMono_trans (ih.mul _ _ _ h1) (ih.addLoop _ _ _ h)
  have haddLoop : ∀ toks st st', parseAddLoopF toks (n + 1) st = some st' →
      PMono st st' := by
    intro toks st st' h
    simp only [parseAddLoopF] at h
    split at h
    · cases h2 : parseMulF toks n (advanceP toks st) with
      | none => rw [h2] at h; simp at h
      | some st1 =>
        rw [h2] at h
        try dsimp only at h
        exact PMono_trans (advanceP_mono toks st)
          (PMono_trans (ih.mul _ _ _ h2) (ih.addLoop _ _ _ h))
    · cases h; exact PMono_rfl st
  have hrel : ∀ toks st st', parseRelF toks (n + 1) st = some st' →
      PMono st st' := by
    intro toks st st' h
    simp only [parseRelF] at h
    cases h1 : parseAddF toks n st with
    | none => rw [h1] at h; simp at h
    | some st1 =>
      rw [h1] at h
      try dsimp only at h
      exact PMono_trans (ih.add _ _ _ h1) (ih.relLoop _ _ _ h)
  have hrelLoop : ∀ toks st st', parseRelLoopF toks (n + 1) st = some st' →
      PMono st st' := by
    intro toks st st' h
    simp only [parseRelLoopF] at h
    split at h
    · cases h2 : parseAddF toks n (advanceP toks st) with
      | none => rw [h2] at h; simp at h
      | some st1 =>
        rw [h2] at h
        try dsimp only at h
        exact PMono_trans (advanceP_mono toks st)
          (PMono_trans (ih.add _ _ _ h2) (ih.relLoop _ _ _ h))
    · cases h; exact PMono_rfl st
  have hland : ∀ toks st st', parseLAndF toks (n + 1) st = some st' →
      PMono st st' := by
    intro toks st st' h
    simp only [parseLAndF] at h
    cases h1 : parseRelF toks n st with
    | none => rw [h1] at h; simp at h
    | some st1 =>
      rw [h1] at h
      try dsimp only at h
      exact PMono_trans (ih.rel _ _ _ h1) (ih.landLoop _ _ _ h)
  have hlandLoop : ∀ toks st st', parseLAndLoopF toks (n + 1) st = some st' →
      PMono st st' := by
    intro toks st st' h
    simp only [parseLAndLoopF] at h
    split at h
    · cases h2 : parseRelF toks n (advanceP toks st) with
      | none => rw [h2] at h; simp at h
      | some st1 =>
        rw [h2] at h
        try dsimp only at h
        exact PMono_trans (advanceP_mono toks st)
          (PMono_trans (ih.rel _ _ _ h2) (ih.landLoop _ _ _ h))
    · cases h; exact PMono_rfl st
  have hlor : ∀ toks st st', parseLOrF toks (n + 1) st = some st' →
      PMono st st' := by
    intro toks st st' h
    simp only [parseLOrF] at h
    cases h1 : parseLAndF toks n st with
    | none => rw [h1] at h; simp at h
    | some st1 =>
      rw [h1] at h
      try dsimp only at h
      exact PMono_trans (ih.land _ _ _ h1) (ih.lorLoop _ _ _ h)
  have hlorLoop : ∀ toks st st', parseLOrLoopF toks (n + 1) st = some st' →
      PMono st st' := by
    intro toks st st' h
    simp only [parseLOrLoopF] at h
    split at h
    · cases h2 : parseLAndF toks n (advanceP toks st) with
      | none => rw [h2] at h; simp at h
      | some st1 =>
        rw [h2] at h
        try dsimp only at h
        exact PMono_trans (advanceP_mono toks st)
          (PMono_trans (ih.land _ _ _ h2) (ih.lorLoop _ _ _ h))
    · cases h; exact PMono_rfl st
  have hexpr : ∀ toks st st', parseExprF toks (n + 1) st = some st' →
      PMono st st' := by
    intro toks st st' h
    simp only [parseExprF] at h
    exact ih.lor _ _ _ h
  have hblock : ∀ toks st st', parseBlockF toks (n + 1) st = some st' →
      PMono st st' := by
    intro toks st st' h
    simp only [parseBlockF] at h
    split at h
    · cases h2 : parseBlockLoopF toks n (advanceP toks st) with
      | none => rw [h2] at h; simp at h
      | some st1 =>
        rw [h2] at h
        try dsimp only at h
        cases h
        exact PMono_trans (advanceP_mono toks st)
          (PMono_trans (ih.blockLoop _ _ _ h2) (consumeP_2_mono toks _ _ _))
    · cases h; exact addErrorP_mono toks st _
  have hblockLoop : ∀ toks st st', parseBlockLoopF toks (n + 1) st = some st' →
      PMono st st' := by
    intro toks st st' h
    simp only [parseBlockLoopF] at h
    split at h
    · cases h; exact PMono_rfl st
    · cases h2 : parseStmtF toks n st with
      | none => rw [h2] at h; simp at h
      | some st1 =>
        rw [h2] at h
        try dsimp only at h
        exact PMono_trans (ih.stmt _ _ _ h2) (ih.blockLoop _ _ _ h)
  have hhead : ∀ toks st st', parseHeadF toks (n + 1) st = some st' →
      PMono st st' := by
    intro toks st st' h
    simp only [parseHeadF] at h
    split at h
    · cases h2 : parseExprF toks n (advanceP toks st) with
      | none => rw [h2] at h; simp at h
      | some st2 =>
        rw [h2] at h
        try dsimp only at h
        cases h
        exact PMono_trans (advanceP_mono toks st)
          (PMono_trans (ih.expr _ _ _ h2) (consumeP_2_mono toks _ _ _))
    · exact PMono_trans (addErrorP_mono toks st _)
        (state_to_mono (skipParenSyncF_state toks n _ _ h))
  have hdeclTail : ∀ toks st st', parseDeclTailF toks (n + 1) st = some st' →
      PMono st st' := by
    intro toks st st' h
    simp only [parseDeclTailF] at h
    split at h
    · cases h2 :
        (if tokTy toks (advanceP toks st) 0 = .TOK_ASSIGN then
          parseExprF toks n (advanceP toks (advanceP toks st))
        else some (advanceP toks st)) with
      | none => rw [h2] at h; simp at h
      | some st2 =>
        rw [h2] at h
        try dsimp only at h
        have hm : PMono st st2 := by
          split at h2
          · exact PMono_trans (advanceP_mono toks st)
              (PMono_trans (advanceP_mono toks _) (ih.expr _ _ _ h2))
          · cases h2; exact advanceP_mono toks st
        exact PMono_trans hm (finishStmtF_mono toks h)
    · exact PMono_trans (addErrorP_mono toks st _) (recoverStmtF_mono toks h)
  have hassignTail : ∀ toks st st', parseAssignTailF toks (n + 1) st = some st' →
      PMono st st' := by
    intro toks st st' h
    simp only [parseAssignTailF] at h
    cases h2 : parseExprF toks n (advanceP toks st) with
    | none => rw [h2] at h; simp at h
    | some st1 =>
      rw [h2] at h
      try dsimp only at h
      exact PMono_trans (advanceP_mono toks st)
        (PMono_trans (ih.expr _ _ _ h2) (finishStmtF_mono toks h))
  have hcallTail : ∀ toks st st', parseCallTailF toks (n + 1) st = some st' →
      PMono st st' := by
    intro toks st st' h
    simp only [parseCallTailF] at h
    cases h2 : parseArgListF toks n (advanceP toks st) with
    | none => rw [h2] at h; simp at h
    | some st4 =>
      rw [h2] at h
      try dsimp only at h
      exact PMono_trans (advanceP_mono toks st)
        (PMono_trans (ih.argList _ _ _ h2)
          (PMono_trans (consumeP_2_mono toks _ _ _) (finishStmtF_mono toks h)))
  have hstmt : ∀ toks st st', parseStmtF toks (n + 1) st = some st' →
      PMono st st' := by
    intro toks st st' h
    simp only [parseStmtF] at h
    split at h
    · exact PMono_trans (advanceP_mono toks st) (ih.declTail _ _ _ h)
    · split at h
      · cases h2 : parseHeadF toks n (advanceP toks st) with
        | none => rw [h2] at h; simp at h
        | some st3 =>
          rw [h2] at h
          try dsimp only at h
          cases h3 : parseStmtF toks n st3 with
          | none => rw [h3] at h; simp at h
          | some st4 =>
            rw [h3] at h
            try dsimp only at h
            have hm : PMono st st4 := PMono_trans (advanceP_mono toks st)
              (PMono_trans (ih.head _ _ _ h2) (ih.stmt _ _ _ h3))
            split at h
            · exact PMono_trans hm
                (PMono_trans (advanceP_mono toks st4) (ih.stmt _ _ _ h))
            · cases h; exact hm
      · split at h
        · cases h2 : parseHeadF toks n (advanceP toks st) with
          | none => rw [h2] at h; simp at h
          | some st3 =>
            rw [h2] at h
            try dsimp only at h
            cases h3 : parseStmtF toks n
                { st3 with loopDepth := st3.loopDepth + 1 } with
            | none => rw [h3] at h; simp at h
            | some st4 =>
              rw [h3] at h
              try dsimp only at h
              cases h
              have hh := PMono_trans (advanceP_mono toks st) (ih.head _ _ _ h2)
              have hs := ih.stmt _ _ _ h3
              have hd : st4.loopDepth = st3.loopDepth + 1 := hs.2.1
              refine ⟨?_, ?_, ?_⟩
              · exact le_trans hh.1 hs.1
              · show st4.loopDepth - 1 = st.loopDepth
                rw [hd, hh.2.1]
                omega
              · intro hi
                exact hs.2.2 (hh.2.2 hi)
        · split at h
          · have hm : PMono st
                (if (advanceP toks st).loopDepth = 0 then
                  addErrorP toks (advanceP toks st) "break not in loop"
                else advanceP toks st) := by
              split
              · exact PMono_trans (advanceP_mono toks st) (addErrorP_mono toks _ _)
              · exact advanceP_mono toks st
            exact PMono_trans hm (finishStmtF_mono toks h)
          · split at h
            · have hm : PMono st
                  (if (advanceP toks st).loopDepth = 0 then
                    addErrorP toks (advanceP toks st) "continue not in loop"
                  else advanceP toks st) := by
                split
                · exact PMono_trans (advanceP_mono toks st) (addErrorP_mono toks _ _)
                · exact advanceP_mono toks st
              exact PMono_trans hm (finishStmtF_mono toks h)
            · split at h
              · cases h2 :
                  (if tokTy toks (advanceP toks st) 0 = .TOK_SEMICOLON then
                    some (advanceP toks st)
                  else parseExprF toks n (advanceP toks st)) with
                | none => rw [h2] at h; simp at h
                | some st2 =>
                  rw [h2] at h
                  try dsimp only at h
                  have hm : PMono st st2 := by
                    split at h2
                    · cases h2; exact advanceP_mono toks st
                    · exact PMono_trans (advanceP_mono toks st) (ih.expr _ _ _ h2)
                  exact PMono_trans hm (finishStmtF_mono toks h)
              · split at h
                · exact ih.block _ _ _ h
                · split at h
                  · split at h
                    · exact PMono_trans (advanceP_mono toks st)
                        (ih.assignTail _ _ _ h)
                    · split at h
                      · exact PMono_trans (advanceP_mono toks st)
                          (ih.callTail _ _ _ h)
                      · exact PMono_trans
                          (PMono_trans (advanceP_mono toks st)
                            (addErrorP_mono toks _ _))
                          (recoverStmtF_mono toks h)
                  · split at h
                    · cases h; exact advanceP_mono toks st
                    · cases h2 : parseExprF toks n st with
                      | none => rw [h2] at h; simp at h
                      | some st1 =>
                        rw [h2] at h
                        try dsimp only at h
                        exact PMono_trans (ih.expr _ _ _ h2)
                          (finishStmtF_mono toks h)
  have hfuncdef : ∀ toks st st', parseFuncDefF toks (n + 1) st = some st' →
      PMono st st' := by
    intro toks st st' h
    simp only [parseFuncDefF] at h
    split at h
    · split at h
      · cases h2 :
          (if tokTy toks (advanceP toks (advanceP toks st)) 0 = .TOK_LPAREN then
            some (advanceP toks (advanceP toks (advanceP toks st)))
          else
            skipSigSyncF toks n
              (addErrorP toks (advanceP toks (advanceP toks st)) "Lack of '('")) with
        | none => rw [h2] at h; simp at h
        | some st2 =>
          rw [h2] at h
          try dsimp only at h
          have hm2 : PMono st st2 := by
            split at h2
            · cases h2
              exact PMono_trans (advanceP_mono toks st)
                (PMono_trans (advanceP_mono toks _) (advanceP_mono toks _))
            · exact PMono_trans (advanceP_mono toks st)
                (PMono_trans (advanceP_mono toks _)
                  (PMono_trans (addErrorP_mono toks _ _)
                    (state_to_mono (skipSigSyncF_state toks n _ _ h2))))
          cases h3 :
            (if tokTy toks st2 0 = .TOK_INT then
              parseParamLoopF toks n (parseParamP toks st2)
            else some st2) with
          | none => rw [h3] at h; simp at h
          | some st3 =>
            rw [h3] at h
            try dsimp only at h
            have hm3 : PMono st2 st3 := by
              split at h3
              · exact PMono_trans (parseParamP_mono toks st2)
                  (parseParamLoopF_mono toks n _ _ h3)
              · cases h3; exact PMono_rfl st2
            cases h4 :
              (if tokTy toks st3 0 = .TOK_RPAREN then some (advanceP toks st3)
              else skipSigSyncF toks n (addErrorP toks st3 "Lack of ')'")) with
            | none => rw [h4] at h; simp at h
            | some st4 =>
              rw [h4] at h
              try dsimp only at h
              have hm4 : PMono st3 st4 := by
                split at h4
                · cases h4; exact advanceP_mono toks st3
                · exact PMono_trans (addErrorP_mono toks _ _)
                    (state_to_mono (skipSigSyncF_state toks n _ _ h4))
              exact PMono_trans hm2
                (PMono_trans hm3 (PMono_trans hm4 (ih.block _ _ _ h)))
      · exact PMono_trans
          (PMono_trans (advanceP_mono toks st) (addErrorP_mono toks _ _))
          (state_to_mono (skipFnSyncF_state toks n _ _ h))
    · exact PMono_trans (addErrorP_mono toks st _)
        (state_to_mono (skipFnSyncF_state toks n _ _ h))
  have hcompunit : ∀ toks st st', parseCompUnitF toks (n + 1) st = some st' →
      PMono st st' := by
    intro toks st st' h
    simp only [parseCompUnitF] at h
    split at h
    · cases h; exact PMono_rfl st
    · cases h2 : parseFuncDefF toks n st with
      | none => rw [h2] at h; simp at h
      | some st1 =>
        rw [h2] at h
        try dsimp only at h
        exact PMono_trans (ih.funcdef _ _ _ h2) (ih.compunit _ _ _ h)
  refine
    { primary := hprimary, argList := hargList, args := hargs, unary := hunary,
      mul := hmul, mulLoop := hmulLoop, add := hadd, addLoop := haddLoop,
      rel := hrel, relLoop := hrelLoop, land := hland, landLoop := hlandLoop,
      lor := hlor, lorLoop := hlorLoop, expr := hexpr, block := hblock,
      blockLoop := hblockLoop, head := hhead, declTail := hdeclTail,
      assignTail := hassignTail, callTail := hcallTail, stmt := hstmt,
      funcdef := hfuncdef, compunit := hcompunit,
      block_st := ?_, stmt_st := ?_, funcdef_st := ?_ }
  · intro toks st st' h hL hp
    simp only [parseBlockF] at h
    rw [if_pos hL] at h
    cases h2 : parseBlockLoopF toks n (advanceP toks st) with
    | none => rw [h2] at h; simp at h
    | some st1 =>
      rw [h2] at h
      try dsimp only at h
      cases h
      have ha := (ih.blockLoop _ _ _ h2).1
      have hb := (consumeP_2_mono toks st1 .TOK_RBRACE "Lack of '\x7d'").1
      rw [advanceP_pos_eq hp] at ha
      omega
  · intro toks st st' h hR hE hp
    simp only [parseStmtF] at h
    split at h
    · have ha := (ih.declTail _ _ _ h).1
      rw [advanceP_pos_eq hp] at ha
      omega
    · split at h
      · cases h2 : parseHeadF toks n (advanceP toks st) with
        | none => rw [h2] at h; simp at h
        | some st3 =>
          rw [h2] at h
          try dsimp only at h
          cases h3 : parseStmtF toks n st3 with
          | none => rw [h3] at h; simp at h
          | some st4 =>
            rw [h3] at h
            try dsimp only at h
            have ha := (ih.head _ _ _ h2).1
            have hb := (ih.stmt _ _ _ h3).1
            rw [advanceP_pos_eq hp] at ha
            split at h
            · have hc := (ih.stmt _ _ _ h).1
              have hd := advanceP_pos_le toks st4
              omega
            · cases h; omega
      · split at h
        · cases h2 : parseHeadF toks n (advanceP toks st) with
          | none => rw [h2] at h; simp at h
          | some st3 =>
            rw [h2] at h
            try dsimp only at h
            cases h3 : parseStmtF toks n
                { st3 with loopDepth := st3.loopDepth + 1 } with
            | none => rw [h3] at h; simp at h
            | some st4 =>
              rw [h3] at h
              try dsimp only at h
              cases h
              have ha := (ih.head _ _ _ h2).1
              have hb : st3.pos ≤ st4.pos := (ih.stmt _ _ _ h3).1
              rw [advanceP_pos_eq hp] at ha
              show st.pos < st4.pos
              omega
        · split at h
          · have hm : st.pos + 1 ≤
                (if (advanceP toks st).loopDepth = 0 then
                  addErrorP toks (advanceP toks st) "break not in loop"
                else advanceP toks st).pos := by
              split
              · rw [addErrorP_pos, advanceP_pos_eq hp]
              · rw [advanceP_pos_eq hp]
            have := (finishStmtF_mono toks h).1
            omega
          · split at h
            · have hm : st.pos + 1 ≤
                  (if (advanceP toks st).loopDepth = 0 then
                    addErrorP toks (advanceP toks st) "continue not in loop"
                  else advanceP toks st).pos := by
                split
                · rw [addErrorP_pos, advanceP_pos_eq hp]
                · rw [advanceP_pos_eq hp]
              have := (finishStmtF_mono toks h).1
              omega
            · split at h
              · cases h2 :
                  (if tokTy toks (advanceP toks st) 0 = .TOK_SEMICOLON then
                    some (advanceP toks st)
                  else parseExprF toks n (advanceP toks st)) with
                | none => rw [h2] at h; simp at h
                | some st2 =>
                  rw [h2] at h
                  try dsimp only at h
                  have hm : st.pos + 1 ≤ st2.pos := by
                    split at h2
                    · cases h2; rw [advanceP_pos_eq hp]
                    · have := (ih.expr _ _ _ h2).1
                      rw [advanceP_pos_eq hp] at this
                      omega
                  have := (finishStmtF_mono toks h).1
                  omega
              · split at h
                · exact ih.block_st _ _ _ h (by assumption) hp
                · split at h
                  · split at h
                    · have ha := (ih.assignTail _ _ _ h).1
                      rw [advanceP_pos_eq hp] at ha
                      omega
                    · split at h
                      · have ha := (ih.callTail _ _ _ h).1
                        rw [advanceP_pos_eq hp] at ha
                        omega
                      · have ha := (recoverStmtF_mono toks h).1
                        rw [addErrorP_pos, advanceP_pos_eq hp] at ha
                        omega
                  · split at h
                    · cases h; rw [advanceP_pos_eq hp]; omega
                    · cases h2 : parseExprF toks n st with
                      | none => rw [h2] at h; simp at h
                      | some st1 =>
                        rw [h2] at h
                        try dsimp only at h
                        have hm1 := (ih.expr _ _ _ h2).1
                        rcases Nat.lt_or_ge st.pos st1.pos with hlt | hge
                        · have := (finishStmtF_mono toks h).1
                          omega
                        · have heq : st1.pos = st.pos := by omega
                          have hty : ∀ k, tokTy toks st1 k = tokTy toks st k :=
                            fun k => tokTy_pos heq
                          have := finishStmtF_st toks h (by rw [hty]; exact hE)
                            (by rw [hty]; exact hR) (by rw [heq]; exact hp)
                          omega
  · intro toks st st' h hE hp
    simp only [parseFuncDefF] at h
    split at h
    · split at h
      · cases h2 :
          (if tokTy toks (advanceP toks (advanceP toks st)) 0 = .TOK_LPAREN then
            some (advanceP toks (advanceP toks (advanceP toks st)))
          else
            skipSigSyncF toks n
              (addErrorP toks (advanceP toks (advanceP toks st)) "Lack of '('")) with
        | none => rw [h2] at h; simp at h
        | some st2 =>
          rw [h2] at h
          try dsimp only at h
          have hm2 : st.pos + 1 ≤ st2.pos := by
            split at h2
            · cases h2
              have h1 := advanceP_pos_le toks (advanceP toks st)
              have h2b := advanceP_pos_le toks (advanceP toks (advanceP toks st))
              rw [advanceP_pos_eq hp] at h1
              omega
            · have hs := (skipSigSyncF_state toks n _ _ h2).1
              rw [addErrorP_pos] at hs
              have h1 := advanceP_pos_le toks (advanceP toks st)
              rw [advanceP_pos_eq hp] at h1
              omega
          cases h3 :
            (if tokTy toks st2 0 = .TOK_INT then
              parseParamLoopF toks n (parseParamP toks st2)
            else some st2) with
          | none => rw [h3] at h; simp at h
          | some st3 =>
            rw [h3] at h
            try dsimp only at h
            have hm3 : st2.pos ≤ st3.pos := by
              split at h3
              · have ha := (parseParamP_mono toks st2).1
                have hb := (parseParamLoopF_mono toks n _ _ h3).1
                omega
              · cases h3; exact le_refl _
            cases h4 :
              (if tokTy toks st3 0 = .TOK_RPAREN then some (advanceP toks st3)
              else skipSigSyncF toks n (addErrorP toks st3 "Lack of ')'")) with
            | none => rw [h4] at h; simp at h
            | some st4 =>
              rw [h4] at h
              try dsimp only at h
              have hm4 : st3.pos ≤ st4.pos := by
                split at h4
                · cases h4; exact advanceP_pos_le toks st3
                · have hs := (skipSigSyncF_state toks n _ _ h4).1
                  rw [addErrorP_pos] at hs
                  exact hs
              have hb := (ih.block _ _ _ h).1
              omega
      · have hs := (skipFnSyncF_state toks n _ _ h).1
        rw [addErrorP_pos] at hs
        have h1 := advanceP_pos_eq hp
        omega
    · rename_i hc
      have h1 : tokTy toks st 0 ≠ .TOK_INT := fun hh => hc (Or.inl hh)
      have h2 : tokTy toks st 0 ≠ .TOK_VOID := fun hh => hc (Or.inr hh)
      have hpe : (addErrorP toks st "Expected function return type").pos = st.pos :=
        addErrorP_pos toks st _
      have hty : ∀ k,
          tokTy toks (addErrorP toks st "Expected function return type") k =
            tokTy toks st k := fun k => tokTy_pos hpe
      have := skipFnSyncF_st toks h (by rw [hty]; exact hE) (by rw [hty]; exact h1)
        (by rw [hty]; exact h2) (by rw [hpe]; exact hp)
      omega

theorem monoAll : ∀ n, MonoProps n := by
  intro n
  induction n with
  | zero => exact monoZero
  | succ n ih => exact monoStep ih
/-! ### Fuel sufficiency of the parser routines (induction on fuel) -/

theorem suffZero : SuffProps 0 := by
  constructor <;> (intro toks st hw h; omega)

theorem suffStep {n : Nat} (ih : SuffProps n) : SuffProps (n + 1) := by
  have M := monoAll n
  have hprimary : ∀ toks st, WfToks toks →
      (toks.length - st.pos) * 21 + 2 ≤ n + 1 →
      (parsePrimaryF toks (n + 1) st).isSome := by
    intro toks st hw h
    simp only [parsePrimaryF]
    by_cases h1 : tokTy toks st 0 = .TOK_ID
    · rw [if_pos h1]
      by_cases h2 : tokTy toks (advanceP toks st) 0 = .TOK_LPAREN
      · rw [if_pos h2]
        have hp : st.pos < toks.length := wf_pos hw (by rw [h1]; decide)
        have ha1 := advanceP_pos_eq hp
        have ha2 := advanceP_pos_le toks (advanceP toks st)
        obtain ⟨st4, h4⟩ := Option.isSome_iff_exists.mp
          (ih.argList toks (advanceP toks (advanceP toks st)) hw (by omega))
        rw [h4]
        try dsimp only
        simp
      · rw [if_neg h2]; simp
    · rw [if_neg h1]
      by_cases h2 : tokTy toks st 0 = .TOK_NUMBER
      · rw [if_pos h2]; simp
      · rw [if_neg h2]
        by_cases h3 : tokTy toks st 0 = .TOK_LPAREN
        · rw [if_pos h3]
          have hp := wf_pos hw (by rw [h3]; decide)
          have ha1 := advanceP_pos_eq hp
          obtain ⟨st1, h4⟩ := Option.isSome_iff_exists.mp
            (ih.expr toks (advanceP toks st) hw (by omega))
          rw [h4]
          try dsimp only
          simp
        · rw [if_neg h3]; simp
  have hargs : ∀ toks st, WfToks toks →
      (toks.length - st.pos) * 21 + 2 ≤ n + 1 →
      (parseArgsF toks (n + 1) st).isSome := by
    intro toks st hw h
    simp only [parseArgsF]
    by_cases hc : tokTy toks st 0 = .TOK_COMMA
    · rw [if_pos hc]
      have hp := wf_pos hw (by rw [hc]; decide)
      have ha1 := advanceP_pos_eq hp
      obtain ⟨st1, h4⟩ := Option.isSome_iff_exists.mp
        (ih.expr toks (advanceP toks st) hw (by omega))
      rw [h4]
      try dsimp only
      have hm := (M.expr _ _ _ h4).1
      exact ih.args toks st1 hw (by omega)
    · rw [if_neg hc]; simp
  have hunary : ∀ toks st, WfToks toks →
      (toks.length - st.pos) * 21 + 3 ≤ n + 1 →
      (parseUnaryF toks (n + 1) st).isSome := by
    intro toks st hw h
    simp only [parseUnaryF]
    by_cases hc : tokTy toks st 0 = .TOK_PLUS ∨ tokTy toks st 0 = .TOK_MINUS ∨
        tokTy toks st 0 = .TOK_NOT
    · rw [if_pos hc]
      have hne : tokTy toks st 0 ≠ .TOK_EOF := by
        rcases hc with hh | hh | hh <;> rw [hh] <;> decide
      have hp := wf_pos hw hne
      have ha1 := advanceP_pos_eq hp
      exact ih.unary toks (advanceP toks st) hw (by omega)
    · rw [if_neg hc]
      exact ih.primary toks st hw (by omega)
  have hmulLoop : ∀ toks st, WfToks toks →
      (toks.length - st.pos) * 21 + 4 ≤ n + 1 →
      (parseMulLoopF toks (n + 1) st).isSome := by
    intro toks st hw h
    simp only [parseMulLoopF]
    by_cases hc : tokTy toks st 0 = .TOK_STAR ∨ tokTy toks st 0 = .TOK_DIV ∨
        tokTy toks st 0 = .TOK_MOD
    · rw [if_pos hc]
      have hne : tokTy toks st 0 ≠ .TOK_EOF := by
        rcases hc with hh | hh | hh <;> rw [hh] <;> decide
      have hp := wf_pos hw hne
      have ha1 := advanceP_pos_eq hp
      obtain ⟨st1, h4⟩ := Option.isSome_iff_exists.mp
        (ih.unary toks (advanceP toks st) hw (by omega))
      rw [h4]
      try dsimp only
      have hm := (M.unary _ _ _ h4).1
      exact ih.mulLoop toks st1 hw (by omega)
    · rw [if_neg hc]; simp
  have hmul : ∀ toks st, WfToks toks →
      (toks.length - st.pos) * 21 + 5 ≤ n + 1 →
      (parseMulF toks (n + 1) st).isSome := by
    intro toks st hw h
    simp only [parseMulF]
    obtain ⟨st1, h4⟩ := Option.isSome_iff_exists.mp
      (ih.unary toks st hw (by omega))
    rw [h4]
    try dsimp only
    have hm := (M.unary _ _ _ h4).1
    exact ih.mulLoop toks st1 hw (by omega)
  have haddLoop : ∀ toks st, WfToks toks →
      (toks.length - st.pos) * 21 + 6 ≤ n + 1 →
      (parseAddLoopF toks (n + 1) st).isSome := by
    intro toks st hw h
    simp only [parseAddLoopF]
    by_cases hc : tokTy toks st 0 = .TOK_PLUS ∨ tokTy toks st 0 = .TOK_MINUS
    · rw [if_pos hc]
      have hne : tokTy toks st 0 ≠ .TOK_EOF := by
        rcases hc with hh | hh <;> rw [hh] <;> decide
      have hp := wf_pos hw hne
      have ha1 := advanceP_pos_eq hp
      obtain ⟨st1, h4⟩ := Option.isSome_iff_exists.mp
        (ih.mul toks (advanceP toks st) hw (by omega))
      rw [h4]
      try dsimp only
      have hm := (M.mul _ _ _ h4).1
      exact ih.addLoop toks st1 hw (by omega)
    · rw [if_neg hc]; simp
  have hadd : ∀ toks st, WfToks toks →
      (toks.length - st.pos) * 21 + 7 ≤ n + 1 →
      (parseAddF toks (n + 1) st).isSome := by
    intro toks st hw h
    simp only [parseAddF]
    obtain ⟨st1, h4⟩ := Option.isSome_iff_exists.mp
      (ih.mul toks st hw (by omega))
    rw [h4]
    try dsimp only
    have hm := (M.mul _ _ _ h4).1
    exact ih.addLoop toks st1 hw (by omega)
  have hrelLoop : ∀ toks st, WfToks toks →
      (toks.length - st.pos) * 21 + 8 ≤ n + 1 →
      (parseRelLoopF toks (n + 1) st).isSome := by
    intro toks st hw h
    simp only [parseRelLoopF]
    by_cases hc : tokTy toks st 0 = .TOK_LT ∨ tokTy toks st 0 = .TOK_LE ∨
        tokTy toks st 0 = .TOK_GT ∨ tokTy toks st 0 = .TOK_GE ∨
        tokTy toks st 0 = .TOK_EQ ∨ tokTy toks st 0 = .TOK_NE
    · rw [if_pos hc]
      have hne : tokTy toks st 0 ≠ .TOK_EOF := by
        rcases hc with hh | hh | hh | hh | hh | hh <;> rw [hh] <;> decide
      have hp := wf_pos hw hne
      have ha1 := advanceP_pos_eq hp
      obtain ⟨st1, h4⟩ := Option.isSome_iff_exists.mp
        (ih.add toks (advanceP toks st) hw (by omega))
      rw [h4]
      try dsimp only
      have hm := (M.add _ _ _ h4).1
      exact ih.relLoop toks st1 hw (by omega)
    · rw [if_neg hc]; simp
  have hrel : ∀ toks st, WfToks toks →
      (toks.length - st.pos) * 21 + 9 ≤ n + 1 →
      (parseRelF toks (n + 1) st).isSome := by
    intro toks st hw h
    simp only [parseRelF]
    obtain ⟨st1, h4⟩ := Option.isSome_iff_exists.mp
      (ih.add toks st hw (by omega))
    rw [h4]
    try dsimp only
    have hm := (M.add _ _ _ h4).1
    exact ih.relLoop toks st1 hw (by omega)
  have hlandLoop : ∀ toks st, WfToks toks →
      (toks.length - st.pos) * 21 + 10 ≤ n + 1 →
      (parseLAndLoopF toks (n + 1) st).isSome := by
    intro toks st hw h
    simp only [parseLAndLoopF]
    by_cases hc : tokTy toks st 0 = .TOK_AND
    · rw [if_pos hc]
      have hp := wf_pos hw (by rw [hc]; decide)
      have ha1 := advanceP_pos_eq hp
      obtain ⟨st1, h4⟩ := Option.isSome_iff_exists.mp
        (ih.rel toks (advanceP toks st) hw (by omega))
      rw [h4]
      try dsimp only
      have hm := (M.rel _ _ _ h4).1
      exact ih.landLoop toks st1 hw (by omega)
    · rw [if_neg hc]; simp
  have hland : ∀ toks st, WfToks toks →
      (toks.length - st.pos) * 21 + 11 ≤ n + 1 →
      (parseLAndF toks (n + 1) st).isSome := by
    intro toks st hw h
    simp only [parseLAndF]
    obtain ⟨st1, h4⟩ := Option.isSome_iff_exists.mp
      (ih.rel toks st hw (by omega))
    rw [h4]
    try dsimp only
    have hm := (M.rel _ _ _ h4).1
    exact ih.landLoop toks st1 hw (by omega)
  have hlorLoop : ∀ toks st, WfToks toks →
      (toks.length - st.pos) * 21 + 12 ≤ n + 1 →
      (parseLOrLoopF toks (n + 1) st).isSome := by
    intro toks st hw h
    simp only [parseLOrLoopF]
    by_cases hc : tokTy toks st 0 = .TOK_OR
    · rw [if_pos hc]
      have hp := wf_pos hw (by rw [hc]; decide)
      have ha1 := advanceP_pos_eq hp
      obtain ⟨st1, h4⟩ := Option.isSome_iff_exists.mp
        (ih.land toks (advanceP toks st) hw (by omega))
      rw [h4]
      try dsimp only
      have hm := (M.land _ _ _ h4).1
      exact ih.lorLoop toks st1 hw (by omega)
    · rw [if_neg hc]; simp
  have hlor : ∀ toks st, WfToks toks →
      (toks.length - st.pos) * 21 + 13 ≤ n + 1 →
      (parseLOrF toks (n + 1) st).isSome := by
    intro toks st hw h
    simp only [parseLOrF]
    obtain ⟨st1, h4⟩ := Option.isSome_iff_exists.mp
      (ih.land toks st hw (by omega))
    rw [h4]
    try dsimp only
    have hm := (M.land _ _ _ h4).1
    exact ih.lorLoop toks st1 hw (by omega)
  have hexpr : ∀ toks st, WfToks toks →
      (toks.length - st.pos) * 21 + 14 ≤ n + 1 →
      (parseExprF toks (n + 1) st).isSome := by
    intro toks st hw h
    simp only [parseExprF]
    exact ih.lor toks st hw (by omega)
  have hargList : ∀ toks st, WfToks toks →
      (toks.length - st.pos) * 21 + 15 ≤ n + 1 →
      (parseArgListF toks (n + 1) st).isSome := by
    intro toks st hw h
    simp only [parseArgListF]
    by_cases hc : tokTy toks st 0 = .TOK_RPAREN
    · rw [if_pos hc]; simp
    · rw [if_neg hc]
      obtain ⟨st1, h4⟩ := Option.isSome_iff_exists.mp
        (ih.expr toks st hw (by omega))
      rw [h4]
      try dsimp only
      have hm := (M.expr _ _ _ h4).1
      exact ih.args toks st1 hw (by omega)
  have hhead : ∀ toks st, WfToks toks →
      (toks.length - st.pos) * 21 + 15 ≤ n + 1 →
      (parseHeadF toks (n + 1) st).isSome := by
    intro toks st hw h
    simp only [parseHeadF]
    by_cases hc : tokTy toks st 0 = .TOK_LPAREN
    · rw [if_pos hc]
      have hp := wf_pos hw (by rw [hc]; decide)
      have ha1 := advanceP_pos_eq hp
      obtain ⟨st2, h4⟩ := Option.isSome_iff_exists.mp
        (ih.expr toks (advanceP toks st) hw (by omega))
      rw [h4]
      try dsimp only
      simp
    · rw [if_neg hc]
      exact skipParenSyncF_suff toks hw n _ (by rw [addErrorP_pos]; omega)
  have hdeclTail : ∀ toks st, WfToks toks →
      (toks.length - st.pos) * 21 + 15 ≤ n + 1 →
      (parseDeclTailF toks (n + 1) st).isSome := by
    intro toks st hw h
    simp only [parseDeclTailF]
    by_cases hc : tokTy toks st 0 = .TOK_ID
    · rw [if_pos hc]
      have hp := wf_pos hw (by rw [hc]; decide)
      have ha1 := advanceP_pos_eq hp
      by_cases hc2 : tokTy toks (advanceP toks st) 0 = .TOK_ASSIGN
      · rw [if_pos hc2]
        have ha2 := advanceP_pos_le toks (advanceP toks st)
        obtain ⟨st2, h4⟩ := Option.isSome_iff_exists.mp
          (ih.expr toks (advanceP toks (advanceP toks st)) hw (by omega))
        rw [h4]
        try dsimp only
        have hm := (M.expr _ _ _ h4).1
        exact finishStmtF_suff toks hw st2 (by omega)
      · rw [if_neg hc2]
        exact finishStmtF_suff toks hw (advanceP toks st) (by omega)
    · rw [if_neg hc]
      exact recoverStmtF_suff toks hw _ (by rw [addErrorP_pos]; omega)
  have hassignTail : ∀ toks st, WfToks toks →
      (toks.length - st.pos) * 21 + 15 ≤ n + 1 →
      (parseAssignTailF toks (n + 1) st).isSome := by
    intro toks st hw h
    simp only [parseAssignTailF]
    have ha1 := advanceP_pos_le toks st
    obtain ⟨st1, h4⟩ := Option.isSome_iff_exists.mp
      (ih.expr toks (advanceP toks st) hw (by omega))
    rw [h4]
    try dsimp only
    have hm := (M.expr _ _ _ h4).1
    exact finishStmtF_suff toks hw st1 (by omega)
  have hcallTail : ∀ toks st, WfToks toks →
      (toks.length - st.pos) * 21 + 16 ≤ n + 1 →
      (parseCallTailF toks (n + 1) st).isSome := by
    intro toks st hw h
    simp only [parseCallTailF]
    have ha1 := advanceP_pos_le toks st
    obtain ⟨st4, h4⟩ := Option.isSome_iff_exists.mp
      (ih.argList toks (advanceP toks st) hw (by omega))
    rw [h4]
    try dsimp only
    have hm := (M.argList _ _ _ h4).1
    have hm2 := (consumeP_2_mono toks st4 .TOK_RPAREN "Lack of ')'").1
    exact finishStmtF_suff toks hw _ (by omega)
  have hblock : ∀ toks st, WfToks toks →
      (toks.length - st.pos) * 21 + 17 ≤ n + 1 →
      (parseBlockF toks (n + 1) st).isSome := by
    intro toks st hw h
    simp only [parseBlockF]
    by_cases hc : tokTy toks st 0 = .TOK_LBRACE
    · rw [if_pos hc]
      have hp := wf_pos hw (by rw [hc]; decide)
      have ha1 := advanceP_pos_eq hp
      obtain ⟨st1, h4⟩ := Option.isSome_iff_exists.mp
        (ih.blockLoop toks (advanceP toks st) hw (by omega))
      rw [h4]
      try dsimp only
      simp
    · rw [if_neg hc]; simp
  have hstmt : ∀ toks st, WfToks toks →
      (toks.length - st.pos) * 21 + 18 ≤ n + 1 →
      (parseStmtF toks (n + 1) st).isSome := by
    intro toks st hw h
    simp only [parseStmtF]
    by_cases c1 : tokTy toks st 0 = .TOK_INT
    · rw [if_pos c1]
      have hp := wf_pos hw (by rw [c1]; decide)
      have ha1 := advanceP_pos_eq hp
      exact ih.declTail toks (advanceP toks st) hw (by omega)
    · rw [if_neg c1]
      by_cases c2 : tokTy toks st 0 = .TOK_IF
      · rw [if_pos c2]
        have hp := wf_pos hw (by rw [c2]; decide)
        have ha1 := advanceP_pos_eq hp
        obtain ⟨st3, h4⟩ := Option.isSome_iff_exists.mp
          (ih.head toks (advanceP toks st) hw (by omega))
        rw [h4]
        try dsimp only
        have hm3 := (M.head _ _ _ h4).1
        obtain ⟨st4, h5⟩ := Option.isSome_iff_exists.mp
          (ih.stmt toks st3 hw (by omega))
        rw [h5]
        try dsimp only
        have hm4 := (M.stmt _ _ _ h5).1
        by_cases c3 : tokTy toks st4 0 = .TOK_ELSE
        · rw [if_pos c3]
          have ha2 := advanceP_pos_le toks st4
          exact ih.stmt toks (advanceP toks st4) hw (by omega)
        · rw [if_neg c3]; simp
      · rw [if_neg c2]
        by_cases c3 : tokTy toks st 0 = .TOK_WHILE
        · rw [if_pos c3]
          have hp := wf_pos hw (by rw [c3]; decide)
          have ha1 := advanceP_pos_eq hp
          obtain ⟨st3, h4⟩ := Option.isSome_iff_exists.mp
            (ih.head toks (advanceP toks st) hw (by omega))
          rw [h4]
          try dsimp only
          have hm3 := (M.head _ _ _ h4).1
          obtain ⟨st4, h5⟩ := Option.isSome_iff_exists.mp
            (ih.stmt toks { st3 with loopDepth := st3.loopDepth + 1 } hw
              (by show (toks.length - st3.pos) * 21 + 18 ≤ n; omega))
          rw [h5]
          try dsimp only
          simp
        · rw [if_neg c3]
          by_cases c4 : tokTy toks st 0 = .TOK_BREAK
          · rw [if_pos c4]
            have hp := wf_pos hw (by rw [c4]; decide)
            have ha1 := advanceP_pos_eq hp
            refine finishStmtF_suff toks hw _ ?_
            split
            · rw [addErrorP_pos]; omega
            · omega
          · rw [if_neg c4]
            by_cases c5 : tokTy toks st 0 = .TOK_CONTINUE
            · rw [if_pos c5]
              have hp := wf_pos hw (by rw [c5]; decide)
              have ha1 := advanceP_pos_eq hp
              refine finishStmtF_suff toks hw _ ?_
              split
              · rw [addErrorP_pos]; omega
              · omega
            · rw [if_neg c5]
              by_cases c6 : tokTy toks st 0 = .TOK_RETURN
              · rw [if_pos c6]
                have hp := wf_pos hw (by rw [c6]; decide)
                have ha1 := advanceP_pos_eq hp
                by_cases c7 : tokTy toks (advanceP toks st) 0 = .TOK_SEMICOLON
                · rw [if_pos c7]
                  exact finishStmtF_suff toks hw (advanceP toks st) (by omega)
                · rw [if_neg c7]
                  obtain ⟨st2, h4⟩ := Option.isSome_iff_exists.mp
                    (ih.expr toks (advanceP toks st) hw (by omega))
                  rw [h4]
                  try dsimp only
                  have hm := (M.expr _ _ _ h4).1
                  exact finishStmtF_suff toks hw st2 (by omega)
              · rw [if_neg c6]
                by_cases c8 : tokTy toks st 0 = .TOK_LBRACE
                · rw [if_pos c8]
                  exact ih.block toks st hw (by omega)
                · rw [if_neg c8]
                  by_cases c9 : tokTy toks st 0 = .TOK_ID
                  · rw [if_pos c9]
                    have hp := wf_pos hw (by rw [c9]; decide)
                    have ha1 := advanceP_pos_eq hp
                    by_cases c10 : tokTy toks (advanceP toks st) 0 = .TOK_ASSIGN
                    · rw [if_pos c10]
                      exact ih.assignTail toks (advanceP toks st) hw (by omega)
                    · rw [if_neg c10]
                      by_cases c11 : tokTy toks (advanceP toks st) 0 = .TOK_LPAREN
                      · rw [if_pos c11]
                        exact ih.callTail toks (advanceP toks st) hw (by omega)
                      · rw [if_neg c11]
                        exact recoverStmtF_suff toks hw _
                          (by rw [addErrorP_pos]; omega)
                  · rw [if_neg c9]
                    by_cases c12 : tokTy toks st 0 = .TOK_SEMICOLON
                    · rw [if_pos c12]; simp
                    · rw [if_neg c12]
                      obtain ⟨st1, h4⟩ := Option.isSome_iff_exists.mp
                        (ih.expr toks st hw (by omega))
                      rw [h4]
                      try dsimp only
                      have hm := (M.expr _ _ _ h4).1
                      exact finishStmtF_suff toks hw st1 (by omega)
  have hblockLoop : ∀ toks st, WfToks toks →
      (toks.length - st.pos) * 21 + 19 ≤ n + 1 →
      (parseBlockLoopF toks (n + 1) st).isSome := by
    intro toks st hw h
    simp only [parseBlockLoopF]
    by_cases hc : tokTy toks st 0 = .TOK_RBRACE ∨ tokTy toks st 0 = .TOK_EOF
    · rw [if_pos hc]; simp
    · rw [if_neg hc]
      have hR : tokTy toks st 0 ≠ .TOK_RBRACE := fun hh => hc (Or.inl hh)
      have hE : tokTy toks st 0 ≠ .TOK_EOF := fun hh => hc (Or.inr hh)
      have hp := wf_pos hw hE
      obtain ⟨st1, h4⟩ := Option.isSome_iff_exists.mp
        (ih.stmt toks st hw (by omega))
      rw [h4]
      try dsimp only
      have hst := M.stmt_st _ _ _ h4 hR hE hp
      exact ih.blockLoop toks st1 hw (by omega)
  have hfuncdef : ∀ toks st, WfToks toks →
      (toks.length - st.pos) * 21 + 20 ≤ n + 1 →
      (parseFuncDefF toks (n + 1) st).isSome := by
    intro toks st hw h
    simp only [parseFuncDefF]
    by_cases c1 : tokTy toks st 0 = .TOK_INT ∨ tokTy toks st 0 = .TOK_VOID
    · rw [if_pos c1]
      have hne : tokTy toks st 0 ≠ .TOK_EOF := by
        rcases c1 with hh | hh <;> rw [hh] <;> decide
      have hp := wf_pos hw hne
      have ha1 := advanceP_pos_eq hp
      by_cases c2 : tokTy toks (advanceP toks st) 0 = .TOK_ID
      · rw [if_pos c2]
        have hfirst :
            (if tokTy toks (advanceP toks (advanceP toks st)) 0 = .TOK_LPAREN then
              some (advanceP toks (advanceP toks (advanceP toks st)))
            else
              skipSigSyncF toks n
                (addErrorP toks (advanceP toks (advanceP toks st))
                  "Lack of '('")).isSome := by
          split
          · simp
          · refine skipSigSyncF_suff toks hw n _ ?_
            rw [addErrorP_pos]
            have := advanceP_pos_le toks (advanceP toks st)
            omega
        obtain ⟨st2, h4⟩ := Option.isSome_iff_exists.mp hfirst
        rw [h4]
        try dsimp only
        have hm2 : st.pos + 1 ≤ st2.pos := by
          split at h4
          · cases h4
            have hb := advanceP_pos_le toks (advanceP toks st)
            have hc := advanceP_pos_le toks (advanceP toks (advanceP toks st))
            omega
          · have hs := (skipSigSyncF_state toks n _ _ h4).1
            rw [addErrorP_pos] at hs
            have hb := advanceP_pos_le toks (advanceP toks st)
            omega
        have hsecond :
            (if tokTy toks st2 0 = .TOK_INT then
              parseParamLoopF toks n (parseParamP toks st2)
            else some st2).isSome := by
          split
          · refine parseParamLoopF_suff toks hw n _ ?_
            have := (parseParamP_mono toks st2).1
            omega
          · simp
        obtain ⟨st3, h5⟩ := Option.isSome_iff_exists.mp hsecond
        rw [h5]
        try dsimp only
        have hm3 : st2.pos ≤ st3.pos := by
          split at h5
          · have ha := (parseParamP_mono toks st2).1
            have hb := (parseParamLoopF_mono toks n _ _ h5).1
            omega
          · cases h5; exact le_refl _
        have hthird :
            (if tokTy toks st3 0 = .TOK_RPAREN then some (advanceP toks st3)
            else skipSigSyncF toks n (addErrorP toks st3 "Lack of ')'")).isSome := by
          split
          · simp
          · refine skipSigSyncF_suff toks hw n _ ?_
            rw [addErrorP_pos]
            omega
        obtain ⟨st4, h6⟩ := Option.isSome_iff_exists.mp hthird
        rw [h6]
        try dsimp only
        have hm4 : st3.pos ≤ st4.pos := by
          split at h6
          · cases h6; exact advanceP_pos_le toks st3
          · have hs := (skipSigSyncF_state toks n _ _ h6).1
            rw [addErrorP_pos] at hs
            exact hs
        exact ih.block toks st4 hw (by omega)
      · rw [if_neg c2]
        refine skipFnSyncF_suff toks hw n _ ?_
        rw [addErrorP_pos]
        omega
    · rw [if_neg c1]
      refine skipFnSyncF_suff toks hw n _ ?_
      rw [addErrorP_pos]
      omega
  have hcompunit : ∀ toks st, WfToks toks →
      (toks.length - st.pos) * 21 + 21 ≤ n + 1 →
      (parseCompUnitF toks (n + 1) st).isSome := by
    intro toks st hw h
    simp only [parseCompUnitF]
    by_cases hc : tokTy toks st 0 = .TOK_EOF
    · rw [if_pos hc]; simp
    · rw [if_neg hc]
      have hp := wf_pos hw hc
      obtain ⟨st1, h4⟩ := Option.isSome_iff_exists.mp
        (ih.funcdef toks st hw (by omega))
      rw [h4]
      try dsimp only
      have hst := M.funcdef_st _ _ _ h4 hc hp
      exact ih.compunit toks st1 hw (by omega)
  exact
    { primary := hprimary, args := hargs, unary := hunary, mulLoop := hmulLoop,
      mul := hmul, addLoop := haddLoop, add := hadd, relLoop := hrelLoop,
      rel := hrel, landLoop := hlandLoop, land := hland, lorLoop := hlorLoop,
      lor := hlor, expr := hexpr, argList := hargList, head := hhead,
      declTail := hdeclTail, assignTail := hassignTail, callTail := hcallTail,
      block := hblock, stmt := hstmt, blockLoop := hblockLoop,
      funcdef := hfuncdef, compunit := hcompunit }

theorem suffAll : ∀ n, SuffProps n := by
  intro n
  induction n with
  | zero => exact suffZero
  | succ n ih => exact suffStep ih
/-! ### Claims C4, C2, C9 and C10 -/

/-- C4: for every token sequence that ends in an end-of-input token the
parser is total: with fuel `21 * |toks| + 21` the top-level parse
returns a result, because every step of plain parsing or panic-mode
recovery advances the cursor or meets the end-of-input token. -/
theorem claim_C4_parse_total (toks : List Token) (hw : WfToks toks) :
    (parseTopF toks (21 * toks.length + 21)).isSome := by
  unfold parseTopF
  have hz : initPState.pos = 0 := rfl
  have h := (suffAll (21 * toks.length + 21)).compunit toks initPState hw
    (by omega)
  obtain ⟨st, hs⟩ := Option.isSome_iff_exists.mp h
  rw [hs]
  simp

theorem claim_C4_parse_total_witness :
    WfToks [⟨.TOK_EOF, "", 1, 1⟩] ∧
      (parseTopF [⟨.TOK_EOF, "", 1, 1⟩]
        (21 * ([⟨.TOK_EOF, "", 1, 1⟩] : List Token).length + 21)).isSome :=
  ⟨⟨List.cons_ne_nil _ _, rfl⟩,
   claim_C4_parse_total _ ⟨List.cons_ne_nil _ _, rfl⟩⟩

/-- C2 (counterexample): the merged diagnostic set is NOT limited to one
diagnostic per source line.  On `"y /*\n"` the lexer reports
`Unterminated comment` on line 1 and the parser reports
`Expected function return type` on line 1; the merge in `main` performs
no cross-pass per-line deduplication, so the program prints two
diagnostic lines for source line 1. -/
theorem claim_C2_counterexample :
    runF 60 "y /*\n" =
      some "reject\n1 Expected function return type\n1 Unterminated comment\n" ∧
    tokenizeF 60 (initLex "y /*\n") =
      some ([⟨.TOK_ID, "y", 1, 1⟩, ⟨.TOK_EOF, "", 2, 1⟩],
            ⟨[], 2, 1, [(1, "Unterminated comment")]⟩) ∧
    parseTopF [⟨.TOK_ID, "y", 1, 1⟩, ⟨.TOK_EOF, "", 2, 1⟩] 60 =
      some (false, ⟨1, [(1, "Expected function return type")], [1], 0⟩) ∧
    ¬ ((([(1, "Unterminated comment")] ++
          [(1, "Expected function return type")] : List (Nat × String)).map
        (fun e : Nat × String => e.1)).Nodup) :=
  ⟨by decide, by decide, by decide, by decide⟩

/-- C2 (amended): the at-most-one-diagnostic-per-line rule holds within
the parser pass alone: whatever token list and fuel, the diagnostics the
parser itself records carry pairwise distinct line numbers (the
`errorLines` set in `Parser::addError` suppresses later errors on an
already-reported line).  The merged set can still repeat a line, one
lexical plus one syntactic diagnostic. -/
theorem claim_C2_parser_one_per_line (toks : List Token) (n : Nat)
    (ok : Bool) (pst : PState) (h : parseTopF toks n = some (ok, pst)) :
    (pst.errors.map (fun e : Nat × String => e.1)).Nodup := by
  unfold parseTopF at h
  cases hc : parseCompUnitF toks n initPState with
  | none => rw [hc] at h; simp at h
  | some st =>
    rw [hc] at h
    simp only [Option.map_some', Option.some.injEq, Prod.mk.injEq] at h
    have hm := (monoAll n).compunit _ _ _ hc
    have hinv : ErrInv st := hm.2.2 ⟨rfl, List.nodup_nil⟩
    rw [← h.2, ← hinv.1]
    exact hinv.2

theorem claim_C2_parser_one_per_line_witness :
    parseTopF [⟨.TOK_EOF, "", 1, 1⟩] 9 = some (true, initPState) ∧
      ((initPState.errors.map (fun e : Nat × String => e.1)).Nodup) :=
  ⟨rfl, claim_C2_parser_one_per_line [⟨.TOK_EOF, "", 1, 1⟩] 9 true initPState rfl⟩

/-- C9: in statement position, after a leading identifier the next token
deterministically selects the production: `=` selects the assignment
tail, `(` selects the call tail, and anything else makes the parser
record the `Invalid statement` diagnostic (on a line not already
carrying a diagnostic) and run panic-mode recovery — a bare identifier
is never silently accepted. -/
theorem claim_C9_stmt_dispatch (toks : List Token) (n : Nat) (st : PState)
    (hid : tokTy toks st 0 = .TOK_ID) :
    (tokTy toks (advanceP toks st) 0 = .TOK_ASSIGN →
      parseStmtF toks (n + 1) st = parseAssignTailF toks n (advanceP toks st)) ∧
    (tokTy toks (advanceP toks st) 0 = .TOK_LPAREN →
      parseStmtF toks (n + 1) st = parseCallTailF toks n (advanceP toks st)) ∧
    (tokTy toks (advanceP toks st) 0 ≠ .TOK_ASSIGN →
      tokTy toks (advanceP toks st) 0 ≠ .TOK_LPAREN →
      parseStmtF toks (n + 1) st =
        recoverStmtF toks n
          (addErrorP toks (advanceP toks st) "Invalid statement") ∧
      ((peekT toks (advanceP toks st) 0).line ∉ st.errLines →
        ∀ st', parseStmtF toks (n + 1) st = some st' →
          st'.errors = st.errors ++
            [((peekT toks (advanceP toks st) 0).line, "Invalid statement")])) := by
  have hbase : parseStmtF toks (n + 1) st =
      (if tokTy toks (advanceP toks st) 0 = .TOK_ASSIGN then
        parseAssignTailF toks n (advanceP toks st)
      else if tokTy toks (advanceP toks st) 0 = .TOK_LPAREN then
        parseCallTailF toks n (advanceP toks st)
      else recoverStmtF toks n
        (addErrorP toks (advanceP toks st) "Invalid statement")) := by
    simp only [parseStmtF]
    rw [hid]
    rw [if_neg (by decide), if_neg (by decide), if_neg (by decide),
        if_neg (by decide), if_neg (by decide), if_neg (by decide),
        if_neg (by decide), if_pos rfl]
  refine ⟨?_, ?_, ?_⟩
  · intro h2
    rw [hbase, h2, if_pos rfl]
  · intro h2
    rw [hbase, h2, if_neg (by decide), if_pos rfl]
  · intro h1 h2
    have heq : parseStmtF toks (n + 1) st =
        recoverStmtF toks n
          (addErrorP toks (advanceP toks st) "Invalid statement") := by
      rw [hbase, if_neg h1, if_neg h2]
    refine ⟨heq, ?_⟩
    intro hl st' hs
    rw [heq] at hs
    have hr := (recoverStmtF_state toks hs).2.1
    rw [hr]
    unfold addErrorP
    dsimp only
    have hmem : (peekT toks (advanceP toks st) 0).line ∉
        (advanceP toks st).errLines := by
      rw [advanceP_errLines]
      exact hl
    rw [if_neg hmem]
    dsimp only
    rw [advanceP_errors]

theorem claim_C9_stmt_dispatch_witness :
    tokTy [⟨.TOK_ID, "a", 1, 1⟩, ⟨.TOK_NUMBER, "1", 1, 3⟩, ⟨.TOK_EOF, "", 1, 4⟩]
        initPState 0 = .TOK_ID ∧
      parseStmtF [⟨.TOK_ID, "a", 1, 1⟩, ⟨.TOK_NUMBER, "1", 1, 3⟩,
          ⟨.TOK_EOF, "", 1, 4⟩] 6 initPState =
        recoverStmtF [⟨.TOK_ID, "a", 1, 1⟩, ⟨.TOK_NUMBER, "1", 1, 3⟩,
            ⟨.TOK_EOF, "", 1, 4⟩] 5
          (addErrorP [⟨.TOK_ID, "a", 1, 1⟩, ⟨.TOK_NUMBER, "1", 1, 3⟩,
              ⟨.TOK_EOF, "", 1, 4⟩]
            (advanceP [⟨.TOK_ID, "a", 1, 1⟩, ⟨.TOK_NUMBER, "1", 1, 3⟩,
                ⟨.TOK_EOF, "", 1, 4⟩] initPState) "Invalid statement") :=
  ⟨by decide,
   ((claim_C9_stmt_dispatch
      [⟨.TOK_ID, "a", 1, 1⟩, ⟨.TOK_NUMBER, "1", 1, 3⟩, ⟨.TOK_EOF, "", 1, 4⟩]
      5 initPState (by decide)).2.2 (by decide) (by decide)).1⟩

/-- C10: the loop-nesting counter starts at zero, is restored by every
statement parse (in particular `while` increments it exactly around the
body parse and decrements it afterwards, as the displayed unfolding
shows), and is zero again when the whole parse finishes. -/
theorem claim_C10_loop_depth :
    initPState.loopDepth = 0 ∧
    (∀ (toks : List Token) (n : Nat) (st st' : PState),
      parseStmtF toks n st = some st' → st'.loopDepth = st.loopDepth) ∧
    (∀ (toks : List Token) (n : Nat) (st : PState),
      tokTy toks st 0 = .TOK_WHILE →
      parseStmtF toks (n + 1) st =
        match parseHeadF toks n (advanceP toks st) with
        | none => none
        | some st3 =>
          match parseStmtF toks n { st3 with loopDepth := st3.loopDepth + 1 } with
          | none => none
          | some st4 => some { st4 with loopDepth := st4.loopDepth - 1 }) ∧
    (∀ (toks : List Token) (n : Nat) (ok : Bool) (pst : PState),
      parseTopF toks n = some (ok, pst) → pst.loopDepth = 0) := by
  refine ⟨rfl, ?_, ?_, ?_⟩
  · intro toks n st st' h
    exact ((monoAll n).stmt _ _ _ h).2.1
  · intro toks n st hwh
    simp only [parseStmtF]
    rw [hwh]
    rw [if_neg (by decide), if_neg (by decide), if_pos rfl]
  · intro toks n ok pst h
    unfold parseTopF at h
    cases hc : parseCompUnitF toks n initPState with
    | none => rw [hc] at h; simp at h
    | some st =>
      rw [hc] at h
      simp only [Option.map_some', Option.some.injEq, Prod.mk.injEq] at h
      have hm := (monoAll n).compunit _ _ _ hc
      rw [← h.2]
      exact hm.2.1

theorem claim_C10_loop_depth_witness :
    parseTopF [⟨.TOK_EOF, "", 1, 1⟩] 7 = some (true, initPState) ∧
      initPState.loopDepth = 0 :=
  ⟨rfl, claim_C10_loop_depth.2.2.2 [⟨.TOK_EOF, "", 1, 1⟩] 7 true initPState rfl⟩

end ToyC
